import Mathlib

/-!
Shallow embedding of the algorithmic core of the SurfacePlot repository
(`src/combine1.py`): G-code parsing, linear/arc interpolation, the height-map
smoother, the mesh height sampler and the surface-conforming rewriter
(`GCodeEditorWidget.modify_gcode`).  Python floats are modelled as rationals;
lines of text are lists of characters.
-/

namespace SurfacePlot

/-- Characters that Python's `str.split()` / `str.strip()` and the regex
class `\s` treat as whitespace (the ASCII ones; the G-code files contain no
exotic unicode whitespace). -/
def isSpc (c : Char) : Bool :=
  c = ' ' || c = '\t' || c = '\n' || c = '\r' || c = '\x0b' || c = '\x0c'

/-- A line of text, as a list of characters. -/
abbrev Line := List Char

def toChars (s : String) : Line := s.toList

/-- Python `str.strip()`: drop leading and trailing whitespace. -/
def strip (l : Line) : Line :=
  ((l.dropWhile isSpc).reverse.dropWhile isSpc).reverse

lemma len_dropWhile_le (p : Char → Bool) (l : List Char) :
    (l.dropWhile p).length ≤ l.length := by
  induction l with
  | nil => simp [List.dropWhile]
  | cons a l ih => by_cases h : p a <;> simp [List.dropWhile, h] <;> omega

/-- Python `str.split()` with no argument: split on runs of whitespace,
dropping empty pieces. -/
def splitWS : Line → List Line
  | [] => []
  | c :: rest =>
    if isSpc c then splitWS rest
    else (c :: rest.takeWhile (fun d => !(isSpc d)))
        :: splitWS (rest.dropWhile (fun d => !(isSpc d)))
termination_by l => l.length
decreasing_by
  all_goals simp only [List.length_cons]
  · omega
  · have h := len_dropWhile_le (fun d => !(isSpc d)) rest
    omega

/-- Decimal digit character for a digit value below 10. -/
def digChar (d : ℕ) : Char :=
  if d = 0 then '0' else if d = 1 then '1' else if d = 2 then '2' else if d = 3 then '3'
  else if d = 4 then '4' else if d = 5 then '5' else if d = 6 then '6' else if d = 7 then '7'
  else if d = 8 then '8' else '9'

/-- Numeric value of a decimal digit character (only ever applied to
characters accepted by `Char.isDigit`). -/
def digVal (c : Char) : ℕ :=
  if c = '0' then 0 else if c = '1' then 1 else if c = '2' then 2 else if c = '3' then 3
  else if c = '4' then 4 else if c = '5' then 5 else if c = '6' then 6 else if c = '7' then 7
  else if c = '8' then 8 else 9

/-- Decimal rendering of a natural number (most significant digit first),
as Python's repr/format of a nonnegative integer produces it. -/
def renderNat (n : ℕ) : Line :=
  if n = 0 then ['0'] else ((Nat.digits 10 n).map digChar).reverse

/-- Decimal rendering padded on the left with zeros to `k` characters
(as the fractional part of an `f`-format field). -/
def renderNatPad (k n : ℕ) : Line :=
  List.replicate (k - (renderNat n).length) '0' ++ renderNat n

/-- Value of a big-endian string of decimal digits. -/
def digitsVal (l : Line) : ℕ := l.foldl (fun a c => 10 * a + digVal c) 0

/-- Longest digit run at the head of a string, and the remainder. -/
def takeDigits (l : Line) : Line × Line :=
  (l.takeWhile Char.isDigit, l.dropWhile Char.isDigit)

/-- Sign of a Python numeric literal / of the regex piece `[-+]?`:
returns (negative?, rest). -/
def parseSign : Line → Bool × Line
  | '-' :: r => (true, r)
  | '+' :: r => (false, r)
  | r => (false, r)

/-- Exponent suffix of a Python float literal: the empty string keeps the
mantissa, `e`/`E` followed by an optionally signed digit run scales it, and
anything else is a `ValueError`. -/
def parseExpPart (mant : ℚ) (rest : Line) : Option ℚ :=
  if rest = [] then some mant
  else if rest.head? = some 'e' ∨ rest.head? = some 'E' then
    let q := parseSign rest.tail
    let d3 := (takeDigits q.2).1
    if d3 = [] ∨ (takeDigits q.2).2 ≠ [] then none
    else some (mant * (10 : ℚ) ^
      (if q.1 then -(digitsVal d3 : ℤ) else (digitsVal d3 : ℤ)))
  else none

/-- Model of Python `float()` on a string: optional surrounding whitespace,
optional sign, a decimal mantissa (`d+`, `d+.d*` or `.d+`), and an optional
exponent part.  The special forms `inf`/`nan` and digit underscores are not
modelled (none of the call sites produce them).  Returns `none` exactly when
Python would raise `ValueError`. -/
def parseFloat (s0 : Line) : Option ℚ :=
  let s1 := strip s0
  let neg := (parseSign s1).1
  let m := (parseSign s1).2
  let d1 := (takeDigits m).1
  let r1 := (takeDigits m).2
  if r1.head? = some '.' then
    let d2 := (takeDigits r1.tail).1
    if d1 = [] ∧ d2 = [] then none
    else
      let mant : ℚ := (digitsVal d1 : ℚ) + (digitsVal d2 : ℚ) / 10 ^ d2.length
      parseExpPart (if neg then -mant else mant) (takeDigits r1.tail).2
  else
    if d1 = [] then none
    else parseExpPart (if neg then -(digitsVal d1 : ℚ) else (digitsVal d1 : ℚ)) r1

/-- The dictionary of coordinate fields built by
`GCodeEditorWidget.parse_coordinates` (src/combine1.py:614).  A field is
`none` when its key is missing or was stored as Python `None` after a failed
`float()` — every read in the code paths modelled here goes through
`.get(...)`, which does not distinguish the two. -/
structure Coords where
  X : Option ℚ
  Y : Option ℚ
  Z : Option ℚ
  F : Option ℚ
  I : Option ℚ
  J : Option ℚ
  S : Option ℚ
deriving DecidableEq, Repr

def emptyCoords : Coords := ⟨none, none, none, none, none, none, none⟩

def setX (c : Coords) (v : Option ℚ) : Coords := ⟨v, c.Y, c.Z, c.F, c.I, c.J, c.S⟩
def setY (c : Coords) (v : Option ℚ) : Coords := ⟨c.X, v, c.Z, c.F, c.I, c.J, c.S⟩
def setZ (c : Coords) (v : Option ℚ) : Coords := ⟨c.X, c.Y, v, c.F, c.I, c.J, c.S⟩
def setF (c : Coords) (v : Option ℚ) : Coords := ⟨c.X, c.Y, c.Z, v, c.I, c.J, c.S⟩
def setI (c : Coords) (v : Option ℚ) : Coords := ⟨c.X, c.Y, c.Z, c.F, v, c.J, c.S⟩
def setJ (c : Coords) (v : Option ℚ) : Coords := ⟨c.X, c.Y, c.Z, c.F, c.I, v, c.S⟩
def setS (c : Coords) (v : Option ℚ) : Coords := ⟨c.X, c.Y, c.Z, c.F, c.I, c.J, v⟩

/-- One token of the `elif` chain of `parse_coordinates` (lines 617-652):
a token starting with an axis letter stores `float(part[1:])`, or `None`
when the conversion fails; other tokens are ignored. -/
def parseTok (c : Coords) (tok : Line) : Coords :=
  match tok with
  | 'X' :: r => setX c (parseFloat r)
  | 'Y' :: r => setY c (parseFloat r)
  | 'Z' :: r => setZ c (parseFloat r)
  | 'F' :: r => setF c (parseFloat r)
  | 'I' :: r => setI c (parseFloat r)
  | 'J' :: r => setJ c (parseFloat r)
  | 'S' :: r => setS c (parseFloat r)
  | _ => c

/-- `GCodeEditorWidget.parse_coordinates` (src/combine1.py:614-653). -/
def parse_coordinates (line : Line) : Coords :=
  (splitWS (strip line)).foldl parseTok emptyCoords

/-- Python `int()` applied to a float: truncation toward zero. -/
def truncInt (q : ℚ) : ℤ := if q < 0 then -(⌊-q⌋) else ⌊q⌋

/-- The f-string field `{q:.kf}`: fixed-point rendering with `k` decimals.
The value is rounded to `k` decimals and printed as sign, integer digits,
point, `k` fraction digits.  (Python prints a sign also for a negative value
that rounds to zero; this model drops it — the value read back is the same,
and the round trips proved below are unaffected.) -/
def renderFixed (k : ℕ) (q : ℚ) : Line :=
  let n : ℤ := round (q * (10 : ℚ) ^ k)
  (if n < 0 then ['-'] else []) ++
    renderNat (n.natAbs / 10 ^ k) ++ '.' :: renderNatPad k (n.natAbs % 10 ^ k)

/-- Python `str()`/f-string of an int. -/
def renderInt (n : ℤ) : Line :=
  (if n < 0 then ['-'] else []) ++ renderNat n.natAbs

/-- `GCodeEditorWidget.generate_gcode_line` (src/combine1.py:655-669):
rebuild a line from the coordinate record, 4 decimals for X/Y/Z, 1 decimal
for F, `int()` for S, trailing newline. -/
def generate_gcode_line (coords : Coords) (command : Line) : Line :=
  command
    ++ (match coords.X with | some v => ' ' :: 'X' :: renderFixed 4 v | none => [])
    ++ (match coords.Y with | some v => ' ' :: 'Y' :: renderFixed 4 v | none => [])
    ++ (match coords.Z with | some v => ' ' :: 'Z' :: renderFixed 4 v | none => [])
    ++ (match coords.F with | some v => ' ' :: 'F' :: renderFixed 1 v | none => [])
    ++ (match coords.S with | some v => ' ' :: 'S' :: renderInt (truncInt v) | none => [])
    ++ ['\n']

/-- A fully-determined position, as built by the defaulting pass at
src/combine1.py:524-526 (every missing axis replaced by the carried value
or 0, so X, Y, Z and F are plain numbers). -/
structure MCoord where
  X : ℚ
  Y : ℚ
  Z : ℚ
  F : ℚ
deriving DecidableEq, Repr

/-- An interpolated point `{"X": _, "Y": _, "Z": _, "F": _}` produced by
`interpolate_segment` / `interpolate_arc`; F comes from `end.get("F")` and
may be `None`. -/
structure Pt where
  X : ℚ
  Y : ℚ
  Z : ℚ
  F : Option ℚ
deriving DecidableEq, Repr

/-- `GCodeEditorWidget.interpolate_segment` (src/combine1.py:568-579):
`steps+1` points, component-wise linear in the loop parameter `i/steps`,
F taken from the end point. -/
def interpolate_segment (start stop : MCoord) (steps : ℕ) : List Pt :=
  (List.range (steps + 1)).map fun (i : ℕ) =>
    let factor : ℚ := (i : ℚ) / (steps : ℚ)
    ⟨start.X + (stop.X - start.X) * factor,
     start.Y + (stop.Y - start.Y) * factor,
     start.Z + (stop.Z - start.Z) * factor,
     some stop.F⟩

/-! ### Height-map smoother (src/combine1.py:92-114) -/

/-- A 2D numpy array of heights: shape `(rows, cols)` plus the cell values
(modelled as a total function; only indices below the bounds matter). -/
structure Grid where
  rows : ℕ
  cols : ℕ
  val : ℕ → ℕ → ℚ

/-- In-place update of one cell. -/
def setCell (g : Grid) (j i : ℕ) (v : ℚ) : Grid :=
  ⟨g.rows, g.cols, fun j2 i2 => if j2 = j ∧ i2 = i then v else g.val j2 i2⟩

/-- The horizontal half of the loop body (lines 98-104): compare cell
`(j,i)` with its right neighbour, average both when the difference exceeds
the threshold, and record that an adjustment happened. -/
def hstep (t : ℚ) (s : Grid × Bool) (j i : ℕ) : Grid × Bool :=
  let g := s.1
  if i + 1 < g.cols then
    let diff := g.val j (i + 1) - g.val j i
    if |diff| > t then
      let m := (g.val j (i + 1) + g.val j i) / 2
      (setCell (setCell g j i m) j (i + 1) m, true)
    else s
  else s

/-- The vertical half of the loop body (lines 105-111). -/
def vstep (t : ℚ) (s : Grid × Bool) (j i : ℕ) : Grid × Bool :=
  let g := s.1
  if j + 1 < g.rows then
    let diff := g.val (j + 1) i - g.val j i
    if |diff| > t then
      let m := (g.val (j + 1) i + g.val j i) / 2
      (setCell (setCell g j i m) (j + 1) i m, true)
    else s
  else s

/-- One cell visit: horizontal check then vertical check, on the already
updated state (the source mutates the array in place). -/
def visitCell (t : ℚ) (s : Grid × Bool) (p : ℕ × ℕ) : Grid × Bool :=
  vstep t (hstep t s p.1 p.2) p.1 p.2

/-- Row-major visitation order of all cells (`for j … for i …`). -/
def gridIndices (r c : ℕ) : List (ℕ × ℕ) :=
  (List.range r).flatMap fun j => (List.range c).map fun i => (j, i)

/-- One full pass of the smoother over all cells, with the `adjusted`
flag (initially False, line 95). -/
def sweep (t : ℚ) (g : Grid) : Grid × Bool :=
  (gridIndices g.rows g.cols).foldl (visitCell t) (g, false)

/-- `smooth_height_map` (src/combine1.py:92-114): up to `m` passes,
stopping early when a pass makes no adjustment. -/
def smooth_height_map (g : Grid) (t : ℚ) : ℕ → Grid
  | 0 => g
  | m + 1 =>
    if (sweep t g).2 = true then smooth_height_map (sweep t g).1 t m
    else (sweep t g).1

/-- Result of `m` unconditional full passes. -/
def sweepN (t : ℚ) : ℕ → Grid → Grid
  | 0, g => g
  | m + 1, g => sweepN t m (sweep t g).1

/-- No horizontally or vertically adjacent pair of cells differs by more
than the threshold. -/
def smoothOk (g : Grid) (t : ℚ) : Prop :=
  (∀ j i, j < g.rows → i + 1 < g.cols → |g.val j (i + 1) - g.val j i| ≤ t) ∧
  (∀ j i, j + 1 < g.rows → i < g.cols → |g.val (j + 1) i - g.val j i| ≤ t)

/-! ### Regex pieces used by `parse_gcode` and `modify_gcode` -/

/-- Greedy match of the regex `\d*\.?\d+` at the head of the string:
returns the numeric value of the match and the unconsumed rest.  (With
backtracking, `12.` matches as `12`, `.5` and `12.34` match whole.) -/
def matchUnsigned (l : Line) : Option (ℚ × Line) :=
  if (takeDigits l).2.head? = some '.' then
    if (takeDigits (takeDigits l).2.tail).1 ≠ [] then
      some ((digitsVal (takeDigits l).1 : ℚ) +
              (digitsVal (takeDigits (takeDigits l).2.tail).1 : ℚ) /
                10 ^ (takeDigits (takeDigits l).2.tail).1.length,
            (takeDigits (takeDigits l).2.tail).2)
    else if (takeDigits l).1 ≠ [] then
      some ((digitsVal (takeDigits l).1 : ℚ), (takeDigits l).2)
    else none
  else if (takeDigits l).1 ≠ [] then
    some ((digitsVal (takeDigits l).1 : ℚ), (takeDigits l).2)
  else none

/-- Greedy match of `[-+]?\d*\.?\d+` at the head of the string. -/
def matchSigned (l : Line) : Option (ℚ × Line) :=
  match l with
  | '-' :: r => (matchUnsigned r).map fun p => (-p.1, p.2)
  | '+' :: r => matchUnsigned r
  | _ => matchUnsigned l

lemma len_takeDigits_snd (l : Line) : (takeDigits l).2.length ≤ l.length := by
  simpa [takeDigits] using len_dropWhile_le Char.isDigit l

lemma len_matchUnsigned (l : Line) {v : ℚ} {r : Line}
    (h : matchUnsigned l = some (v, r)) : r.length ≤ l.length := by
  unfold matchUnsigned at h
  have h1 := len_takeDigits_snd l
  have h2 := len_takeDigits_snd (takeDigits l).2.tail
  have h3 : (takeDigits l).2.tail.length ≤ (takeDigits l).2.length := by
    cases (takeDigits l).2 <;> simp
  split_ifs at h <;> simp_all <;> omega

lemma len_matchSigned (l : Line) {v : ℚ} {r : Line}
    (h : matchSigned l = some (v, r)) : r.length ≤ l.length := by
  unfold matchSigned at h
  split at h
  · simp only [Option.map_eq_some'] at h
    obtain ⟨p, hp, he⟩ := h
    cases p
    cases he
    have := len_matchUnsigned _ hp
    simp; omega
  · have := len_matchUnsigned _ h
    simp; omega
  · exact len_matchUnsigned _ h

/-- `re.search(r"C([-+]?\d*\.?\d+)", line)` for an axis letter `C`:
value of the first occurrence of the letter followed by a number, or
`None`. -/
def regexSearchAxis (c : Char) : Line → Option ℚ
  | [] => none
  | a :: rest =>
    if a = c then
      match matchSigned rest with
      | some p => some p.1
      | none => regexSearchAxis c rest
    else regexSearchAxis c rest

/-- `re.findall(r"[XYZIJ][-+]?\d*\.?\d+", line)` followed by
`{item[0]: float(item[1:])}`: the non-overlapping axis-letter/number
matches, in order. -/
def findAxisNums : Line → List (Char × ℚ)
  | [] => []
  | a :: rest =>
    if a = 'X' ∨ a = 'Y' ∨ a = 'Z' ∨ a = 'I' ∨ a = 'J' then
      match h : matchSigned rest with
      | some p => (a, p.1) :: findAxisNums p.2
      | none => findAxisNums rest
    else findAxisNums rest
termination_by l => l.length
decreasing_by
  all_goals simp only [List.length_cons]
  · have := len_matchSigned rest h
    omega
  · omega
  · omega

/-- Python dict comprehension over the matches: the last occurrence of a
key wins. -/
def lookupLast (ps : List (Char × ℚ)) (c : Char) : Option ℚ :=
  ps.foldl (fun acc p => if p.1 = c then some p.2 else acc) none

/-- `re.search(r"Z\s*([-+]?\d*\.?\d+)", line)`: value of the first `Z`
followed by optional whitespace and a number. -/
def zNumSearch : Line → Option ℚ
  | [] => none
  | a :: rest =>
    if a = 'Z' then
      match matchSigned (rest.dropWhile isSpc) with
      | some p => some p.1
      | none => zNumSearch rest
    else zNumSearch rest

/-- `re.sub(r"Z\s*([-+]?\d*\.?\d+)", repl, line)`: replace every
(non-overlapping, left-to-right) `Z`-number occurrence by `repl`. -/
def subZ (repl : Line) : Line → Line
  | [] => []
  | a :: rest =>
    if a = 'Z' then
      match h : matchSigned (rest.dropWhile isSpc) with
      | some p => repl ++ subZ repl p.2
      | none => a :: subZ repl rest
    else a :: subZ repl rest
termination_by l => l.length
decreasing_by
  all_goals simp only [List.length_cons]
  · have h1 := len_matchSigned _ h
    have h2 := len_dropWhile_le isSpc rest
    omega
  · omega
  · omega

/-! ### Arc expansion -/

/-- The float math functions the source takes from numpy (`np.sqrt`,
`np.cos`, `np.sin`, `np.arctan2`, `np.pi`).  The embedding is parametric in
them: rationals have no computable transcendental functions, and every
property proved below either holds for an arbitrary backend or only needs
`sqrtQ 0 = 0`, stated as an explicit hypothesis. -/
structure TrigLib where
  sqrtQ : ℚ → ℚ
  cosQ : ℚ → ℚ
  sinQ : ℚ → ℚ
  atan2Q : ℚ → ℚ → ℚ
  piQ : ℚ

/-- A concrete placeholder backend used for closed evaluations; the runs
below only consult it where the true functions agree with it
(`sqrt 0 = 0`, `atan2 0 x ∈ {0, π}` multiplied by a zero radius) or where
its value is multiplied by zero. -/
def trigZero : TrigLib := ⟨fun _ => 0, fun _ => 0, fun _ => 0, fun _ _ => 0, 0⟩

/-- Direction normalization of `parse_gcode` (src/combine1.py:173-178):
clockwise adds 2π to the end angle when it is below the start angle,
counterclockwise subtracts 2π when it is above. -/
def normalizeEndAngleParse (two_pi : ℚ) (cw : Bool) (sa ea : ℚ) : ℚ :=
  if cw then (if ea < sa then ea + two_pi else ea)
  else (if ea > sa then ea - two_pi else ea)

/-- Normalization of `interpolate_arc` (src/combine1.py:588-589): 2π is
subtracted whenever the end angle exceeds the start angle, with no
direction test. -/
def normalizeEndAngleInterp (two_pi : ℚ) (sa ea : ℚ) : ℚ :=
  if ea > sa then ea - two_pi else ea

/-- `np.linspace(a, b, num)`: `num` evenly spaced samples including both
endpoints. -/
def linspaceQ (a b : ℚ) (num : ℕ) : List ℚ :=
  (List.range num).map fun (k : ℕ) => a + (b - a) * (k : ℚ) / ((num : ℚ) - 1)

/-- The angle samples of `interpolate_arc`'s loop:
`theta = start + delta * (i / steps)` for `i = 0 … steps`. -/
def arcThetas (sa ne : ℚ) (steps : ℕ) : List ℚ :=
  (List.range (steps + 1)).map fun (i : ℕ) => sa + (ne - sa) * ((i : ℚ) / (steps : ℚ))

/-- `GCodeEditorWidget.interpolate_arc` (src/combine1.py:581-599), with the
start and end dictionaries passed as their X/Y/Z components (the source
reads `start["X"]`…`end["Z"]`; a missing end key raises `KeyError` there,
so this model is meaningful for the call sites, which supply them). -/
def interpolate_arc (L : TrigLib) (sx sy sz ex ey ez : ℚ) (f : Option ℚ)
    (i j : Option ℚ) (steps : ℕ) : List Pt :=
  let cx := sx + i.getD 0
  let cy := sy + j.getD 0
  let r := L.sqrtQ ((i.getD 0) ^ 2 + (j.getD 0) ^ 2)
  let sa := L.atan2Q (sy - cy) (sx - cx)
  let ea := normalizeEndAngleInterp (2 * L.piQ) sa (L.atan2Q (ey - cy) (ex - cx))
  let da := ea - sa
  (List.range (steps + 1)).map fun (k : ℕ) =>
    let factor : ℚ := (k : ℚ) / (steps : ℚ)
    let th := sa + da * factor
    ⟨cx + r * L.cosQ th, cy + r * L.sinQ th, sz + (ez - sz) * factor, f⟩

/-! ### `parse_gcode` (src/combine1.py:140-190) -/

def gZero : Line := ['G', '0']
def gOne : Line := ['G', '1']
def gTwo : Line := ['G', '2']
def gThree : Line := ['G', '3']

/-- One axis read of the G0/G1 branch (lines 149-154): when the letter
occurs anywhere in the line, `re.search(...).group(1)` is evaluated — a
line that contains the letter but no parsable number after any occurrence
makes `re.search` return `None`, and `.group(1)` raises `AttributeError`,
aborting the whole parse (modelled as `Except.error`). -/
def axisRead (c : Char) (line : Line) (cur : ℚ) : Except Unit ℚ :=
  if line.contains c then
    match regexSearchAxis c line with
    | some v => Except.ok v
    | none => Except.error ()
  else Except.ok cur

/-- One line of `parse_gcode`'s loop: state is the collected points plus the
current position. -/
def parse_gcode_step (L : TrigLib) (acc : List (ℚ × ℚ × ℚ) × (ℚ × ℚ × ℚ))
    (line0 : Line) : Except Unit (List (ℚ × ℚ × ℚ) × (ℚ × ℚ × ℚ)) :=
  let line := strip line0
  let x := acc.2.1
  let y := acc.2.2.1
  let z := acc.2.2.2
  if gOne.isPrefixOf line || gZero.isPrefixOf line then do
    let xv ← axisRead 'X' line x
    let yv ← axisRead 'Y' line y
    let zv ← axisRead 'Z' line z
    Except.ok (acc.1 ++ [(xv, yv, zv)], (xv, yv, zv))
  else if gTwo.isPrefixOf line || gThree.isPrefixOf line then
    let parts := findAxisNums line
    let iv := lookupLast parts 'I'
    let jv := lookupLast parts 'J'
    let ex := (lookupLast parts 'X').getD x
    let ey := (lookupLast parts 'Y').getD y
    match iv, jv with
    | some i, some j =>
      let cx := x + i
      let cy := y + j
      let r := L.sqrtQ (i ^ 2 + j ^ 2)
      let sa := L.atan2Q (y - cy) (x - cx)
      let ea := normalizeEndAngleParse (2 * L.piQ) (gTwo.isPrefixOf line) sa
                  (L.atan2Q (ey - cy) (ex - cx))
      let arcPts := (linspaceQ sa ea 20).map fun th =>
        (cx + r * L.cosQ th, cy + r * L.sinQ th, z)
      -- `arc_points[-1]`; the list has 20 elements, the default is unreachable
      let lastPt := arcPts.getLastD (0, 0, 0)
      Except.ok (acc.1 ++ arcPts, (lastPt.1, lastPt.2.1, z))
    | _, _ =>
      Except.ok (acc.1 ++ [(ex, ey, z)], (ex, ey, z))
  else Except.ok acc

/-- `parse_gcode` (src/combine1.py:140-190): fold over the lines starting
from current position `[0.0, 0.0, 0.2]`; an `AttributeError` in any line
aborts the whole call. -/
def parse_gcode (L : TrigLib) (lines : List Line) : Except Unit (List (ℚ × ℚ × ℚ)) := do
  let r ← lines.foldlM (parse_gcode_step L) ([], (0, 0, 1 / 5))
  pure r.1

/-! ### Mesh height sampler (src/combine1.py:601-612) -/

/-- One STL triangle: three 3D vertices. -/
abbrev Tri := (ℚ × ℚ × ℚ) × (ℚ × ℚ × ℚ) × (ℚ × ℚ × ℚ)

/-- `np.mean(vectors, axis=1)` for one face: the centroid. -/
def centroid (t : Tri) : ℚ × ℚ × ℚ :=
  ((t.1.1 + t.2.1.1 + t.2.2.1) / 3,
   (t.1.2.1 + t.2.1.2.1 + t.2.2.2.1) / 3,
   (t.1.2.2 + t.2.1.2.2 + t.2.2.2.2) / 3)

/-- Squared planar distance from the query to a centroid.  The source takes
`np.sqrt` of these before `np.argmin`; the square root is strictly
monotone, so the first minimum is at the same index and the model compares
the squares to stay inside ℚ. -/
def dist2 (x y : ℚ) (c : ℚ × ℚ × ℚ) : ℚ := (c.1 - x) ^ 2 + (c.2.1 - y) ^ 2

/-- `np.argmin` over the centroid distances (first minimum), returning the
Z of the winning centroid. -/
def nearestCentroidZ (x y : ℚ) (t0 : Tri) (ts : List Tri) : ℚ :=
  (ts.foldl
    (fun best tr =>
      if dist2 x y (centroid tr) < best.1 then (dist2 x y (centroid tr), (centroid tr).2.2)
      else best)
    (dist2 x y (centroid t0), (centroid t0).2.2)).2

/-- `GCodeEditorWidget.get_z_height_from_stl` (src/combine1.py:601-612):
with no mesh loaded the function returns `None` (line 603-604); with an
empty face list the numpy reduction raises, the handler at lines 610-612
catches it and also returns `None`; otherwise the Z of the planarly nearest
face centroid. -/
def get_z_height_from_stl (mesh : Option (List Tri)) (x y : ℚ) : Option ℚ :=
  match mesh with
  | none => none
  | some [] => none
  | some (t :: ts) => some (nearestCentroidZ x y t ts)

/-! ### Surface-conforming rewriter (`modify_gcode`, src/combine1.py:492-566) -/

/-- The per-point Z conforming of the rewriter — this exact block appears
verbatim for linear segments (lines 534-541) and for arc points
(lines 554-561): when a height sample is available, a first-cut point takes
the sampled height absolutely, any other point takes the sampled height
minus the absolute value of its interpolated Z; without a sample the point
is left unchanged. -/
def conformPoint (sample : ℚ → ℚ → Option ℚ) (first_cut : Bool) (pt : Pt) : Pt :=
  match sample pt.X pt.Y with
  | none => pt
  | some h => if first_cut then ⟨pt.X, pt.Y, h, pt.F⟩ else ⟨pt.X, pt.Y, h - |pt.Z|, pt.F⟩

/-- View of an interpolated point as a coordinate dictionary (keys X, Y, Z,
F as the interpolation loops create them). -/
def ptCoords (pt : Pt) : Coords := ⟨some pt.X, some pt.Y, some pt.Z, pt.F, none, none, none⟩

/-- The emission loop shared by both branches: conform every interpolated
point and serialize it as a `G1` line. -/
def emitPoints (sample : ℚ → ℚ → Option ℚ) (first_cut : Bool) (pts : List Pt) : List Line :=
  pts.map fun pt => generate_gcode_line (ptCoords (conformPoint sample first_cut pt)) gOne

/-- The rewriter's loop state: output lines, the first-cut flag, the
carried position dictionary and the last known X/Y. -/
structure MState where
  out : List Line
  first_cut : Bool
  cur : Coords
  last_xy : Option (ℚ × ℚ)
deriving DecidableEq, Repr

/-- Axis defaulting of lines 524-526: the newly parsed value if present,
else the carried one, else 0. -/
def defaultAxis (nv cv : Option ℚ) : ℚ :=
  match nv with
  | some v => v
  | none => match cv with | some v => v | none => 0

def defaulted (nc cp : Coords) : MCoord :=
  ⟨defaultAxis nc.X cp.X, defaultAxis nc.Y cp.Y, defaultAxis nc.Z cp.Z, defaultAxis nc.F cp.F⟩

/-- The defaulted dictionary that becomes the new `current_pos`
(it keeps any parsed I/J/S entries). -/
def mkCur (nc : Coords) (m : MCoord) : Coords :=
  ⟨some m.X, some m.Y, some m.Z, some m.F, nc.I, nc.J, nc.S⟩

/-- `line.split()[0]` (defined on the lines reaching it: they start with a
non-blank G command). -/
def firstTok (line : Line) : Line := (splitWS line).headD []

/-- The G0/G1 branch of `modify_gcode` (lines 522-543), also entered by
fall-through from the G0-with-Z branch. -/
def linearBody (mesh : Option (List Tri)) (steps : ℕ) (st : MState) (line : Line) : MState :=
  let nc0 := parse_coordinates line
  let m := defaulted nc0 st.cur
  -- line 527-528 always fires: after defaulting both X and Y are numbers
  let lxy := some (m.X, m.Y)
  if st.cur.X = none ∨ st.cur.Y = none then
    ⟨st.out ++ [generate_gcode_line (mkCur nc0 m) (firstTok line)], st.first_cut, mkCur nc0 m, lxy⟩
  else
    let startM : MCoord :=
      ⟨st.cur.X.getD 0, st.cur.Y.getD 0, st.cur.Z.getD 0, st.cur.F.getD 0⟩
    let pts := interpolate_segment startM m steps
    ⟨st.out ++ emitPoints (get_z_height_from_stl mesh) st.first_cut pts, false, mkCur nc0 m, lxy⟩

/-- The G2 branch of `modify_gcode` (lines 544-563).  Line 546 reads
`new_coords.get("Z", current_pos.get("Z", 0))`; a Z token whose number
failed to parse is conflated here with an absent Z (the source would keep
the `None` and crash later in `interpolate_arc` — a path no claim
exercises). -/
def arcBody (L : TrigLib) (mesh : Option (List Tri)) (arcSteps : ℕ)
    (st : MState) (line : Line) : MState :=
  let nc0 := parse_coordinates line
  let z : ℚ := match nc0.Z with | some zz => zz | none => st.cur.Z.getD 0
  let nc : Coords := ⟨nc0.X, nc0.Y, some z, nc0.F, nc0.I, nc0.J, nc0.S⟩
  if st.cur.X = none ∨ st.cur.Y = none then
    ⟨st.out ++ [line], st.first_cut, nc, st.last_xy⟩
  else
    let pts := interpolate_arc L (st.cur.X.getD 0) (st.cur.Y.getD 0) (st.cur.Z.getD 0)
      (nc.X.getD 0) (nc.Y.getD 0) z nc.F nc0.I nc0.J arcSteps
    ⟨st.out ++ emitPoints (get_z_height_from_stl mesh) st.first_cut pts, false, nc, st.last_xy⟩

/-- One line of `modify_gcode`'s loop (lines 497-565).  The first branch
(lines 499-520) handles `G0` lines carrying a Z value; each of its failure
paths falls through to the plain G0/G1 branch.  `coords["X"]`,
`coords["Y"]`, `coords["Z"]` are direct dictionary reads there (a line
whose letter appears without a parsable token would raise `KeyError`); the
model reads them with default 0, which agrees on every line the branch
actually accepts. -/
def stepLine (L : TrigLib) (mesh : Option (List Tri)) (steps arcSteps : ℕ)
    (st : MState) (line : Line) : MState :=
  if gZero.isPrefixOf line && (zNumSearch line).isSome then
    if line.contains 'X' && line.contains 'Y' then
      let coords := parse_coordinates line
      match get_z_height_from_stl mesh (coords.X.getD 0) (coords.Y.getD 0) with
      | some h =>
        let nz := coords.Z.getD 0 + h
        ⟨st.out ++ [subZ ('Z' :: renderFixed 4 nz) line], st.first_cut, st.cur,
          some (coords.X.getD 0, coords.Y.getD 0)⟩
      | none => linearBody mesh steps st line
    else
      match st.last_xy with
      | some lxy =>
        match zNumSearch line with
        | some origz =>
          match get_z_height_from_stl mesh lxy.1 lxy.2 with
          | some h =>
            ⟨st.out ++ [subZ ('Z' :: renderFixed 4 (origz + h)) line], st.first_cut, st.cur,
              st.last_xy⟩
          | none => linearBody mesh steps st line
        | none => linearBody mesh steps st line
      | none => linearBody mesh steps st line
  else if gZero.isPrefixOf line || gOne.isPrefixOf line then
    linearBody mesh steps st line
  else if gTwo.isPrefixOf line then
    arcBody L mesh arcSteps st line
  else
    ⟨st.out ++ [line], st.first_cut, st.cur, st.last_xy⟩

/-- `GCodeEditorWidget.modify_gcode` (src/combine1.py:492-566): fold over
the input lines with `first_cut = True`, all-`None` current position and no
last X/Y; returns the rewritten lines. -/
def modify_gcode (L : TrigLib) (mesh : Option (List Tri)) (steps arcSteps : ℕ)
    (lines : List Line) : List Line :=
  (lines.foldl (stepLine L mesh steps arcSteps) ⟨[], true, emptyCoords, none⟩).out

/-! ### Theorems -/

/-- C9: for every start and end coordinate and every steps value `N ≥ 1`,
`interpolate_segment` produces exactly `N+1` points, point `i` lying at
parameter `i/N` component-wise between start and end (so point 0 is the
start and point `N` is the end), and every generated point carries the end
point's F value. -/
theorem interpolate_segment_spec (start stop : MCoord) (N : ℕ) (hN : 1 ≤ N) :
    (interpolate_segment start stop N).length = N + 1 ∧
    (∀ i : ℕ, i ≤ N → (interpolate_segment start stop N)[i]? =
      some ⟨start.X + (stop.X - start.X) * ((i : ℚ) / (N : ℚ)),
            start.Y + (stop.Y - start.Y) * ((i : ℚ) / (N : ℚ)),
            start.Z + (stop.Z - start.Z) * ((i : ℚ) / (N : ℚ)),
            some stop.F⟩) ∧
    (interpolate_segment start stop N)[0]? =
      some ⟨start.X, start.Y, start.Z, some stop.F⟩ ∧
    (interpolate_segment start stop N)[N]? =
      some ⟨stop.X, stop.Y, stop.Z, some stop.F⟩ ∧
    ∀ pt ∈ interpolate_segment start stop N, pt.F = some stop.F := by
  have hnth : ∀ i : ℕ, i ≤ N → (interpolate_segment start stop N)[i]? =
      some ⟨start.X + (stop.X - start.X) * ((i : ℚ) / (N : ℚ)),
            start.Y + (stop.Y - start.Y) * ((i : ℚ) / (N : ℚ)),
            start.Z + (stop.Z - start.Z) * ((i : ℚ) / (N : ℚ)),
            some stop.F⟩ := by
    intro i hi
    have hlt : i < N + 1 := Nat.lt_succ_of_le hi
    simp only [interpolate_segment, List.getElem?_map, List.getElem?_range, hlt,
      if_pos, Option.map_some']
  have hN0 : (N : ℚ) ≠ 0 := Nat.cast_ne_zero.mpr (by omega)
  refine ⟨by simp only [interpolate_segment, List.length_map, List.length_range],
    hnth, ?_, ?_, ?_⟩
  · have h0 := hnth 0 (Nat.zero_le N)
    simpa using h0
  · have hn := hnth N le_rfl
    rw [hn, div_self hN0]
    norm_num
  · intro pt hpt
    simp only [interpolate_segment, List.mem_map, List.mem_range] at hpt
    obtain ⟨i, _, rfl⟩ := hpt
    rfl

/-- Witness for C9: the spec's example, interpolation from (0,0,0) to
(10,0,5) with steps = 10 has point index 5 at (5, 0, 2.5). -/
theorem interpolate_segment_spec_witness :
    (1 : ℕ) ≤ 10 ∧
    (interpolate_segment ⟨0, 0, 0, 100⟩ ⟨10, 0, 5, 100⟩ 10)[5]? =
      some ⟨5, 0, 5 / 2, some 100⟩ := by
  refine ⟨by norm_num, ?_⟩
  have h := (interpolate_segment_spec ⟨0, 0, 0, 100⟩ ⟨10, 0, 5, 100⟩ 10 (by norm_num)).2.1
    5 (by norm_num)
  rw [h]
  norm_num

/-- C1: per interpolated point of a linear or arc segment (both branches
run the same emission loop `emitPoints`), when a height sample `h` is
available the emitted line at the same index is the point rewritten by the
rule: Z = h in first-cut mode, and Z = h − |original interpolated Z|
otherwise. -/
theorem conform_point_rule (sample : ℚ → ℚ → Option ℚ) (fc : Bool) (pts : List Pt)
    (k : ℕ) (pt : Pt) (h : ℚ) (hk : pts[k]? = some pt)
    (hs : sample pt.X pt.Y = some h) :
    (emitPoints sample fc pts)[k]? =
      some (generate_gcode_line
        (ptCoords ⟨pt.X, pt.Y, if fc then h else h - |pt.Z|, pt.F⟩) gOne) := by
  simp only [emitPoints, List.getElem?_map, hk, Option.map_some', conformPoint, hs]
  cases fc <;> simp

/-- Witness for C1: a concrete steady-cut point with sample 7 and original
Z = −3 is emitted with Z = 7 − |−3| = 4. -/
theorem conform_point_rule_witness :
    ([(⟨1, 2, -3, none⟩ : Pt)][0]? = some (⟨1, 2, -3, none⟩ : Pt)) ∧
    ((fun _ _ => some (7 : ℚ)) (1 : ℚ) (2 : ℚ) = some (7 : ℚ)) ∧
    (emitPoints (fun _ _ => some (7 : ℚ)) false [⟨1, 2, -3, none⟩])[0]? =
      some (generate_gcode_line (ptCoords ⟨1, 2, if false then 7 else 7 - |(-3 : ℚ)|, none⟩) gOne) := by
  refine ⟨rfl, rfl, ?_⟩
  exact conform_point_rule (fun _ _ => some 7) false [⟨1, 2, -3, none⟩] 0 ⟨1, 2, -3, none⟩ 7 rfl rfl

/-- C3 (amended): when the height sampler has no surface data — no mesh
loaded, or a mesh with zero faces — `get_z_height_from_stl` returns absent
(`None`, no exception type exists), the per-point conforming step leaves
the point unchanged, and the rewriter's emission loop still serializes
every point, i.e. it emits each point with its unmodified interpolated Z
instead of aborting. -/
theorem sampler_absent_behavior :
    (∀ x y : ℚ, get_z_height_from_stl none x y = none) ∧
    (∀ x y : ℚ, get_z_height_from_stl (some []) x y = none) ∧
    (∀ (fc : Bool) (pt : Pt), conformPoint (get_z_height_from_stl none) fc pt = pt) ∧
    (∀ (fc : Bool) (pts : List Pt), emitPoints (get_z_height_from_stl none) fc pts =
      pts.map fun pt => generate_gcode_line (ptCoords pt) gOne) := by
  refine ⟨fun x y => rfl, fun x y => rfl, fun fc pt => rfl, fun fc pts => ?_⟩
  simp [emitPoints, conformPoint, get_z_height_from_stl]

set_option maxHeartbeats 4000000 in
/-- Counterexample to C3 as stated: with no mesh loaded, rewriting
`G1 X0 Y0 Z1` / `G1 X10 Y0 Z0` emits (among others) the interpolated point
(5, 0, 0.5) with its unmodified Z — nothing is signalled and the pass is
not aborted, contradicting the claimed error propagation. -/
theorem sampler_silent_passthrough_counterexample :
    (modify_gcode trigZero none 10 20 [toChars "G1 X0 Y0 Z1", toChars "G1 X10 Y0 Z0"])[6]? =
      some (toChars "G1 X5.0000 Y0.0000 Z0.5000 F0.0\n") ∧
    (interpolate_segment ⟨0, 0, 1, 0⟩ ⟨10, 0, 0, 0⟩ 10)[5]? =
      some ⟨5, 0, 1 / 2, some 0⟩ := by
  constructor
  · norm_num +decide [modify_gcode, stepLine, linearBody, arcBody, parse_coordinates,
      parseTok, splitWS, parseFloat, parseExpPart, parseSign, takeDigits, strip, isSpc,
      toChars, digitsVal, digVal, digChar, interpolate_segment, emitPoints, conformPoint,
      ptCoords, get_z_height_from_stl, generate_gcode_line, renderFixed, renderNat,
      renderNatPad, defaultAxis, defaulted, mkCur, firstTok, zNumSearch, matchSigned,
      matchUnsigned, gOne, gZero, gTwo, emptyCoords, setX, setY, setZ, setF, setS, setI,
      setJ, List.foldl, List.range_succ, List.isPrefixOf, List.contains, List.dropWhile,
      List.takeWhile, round_zero, round_natCast, round_ofNat, round_one, Nat.digits_def',
      Nat.digits_zero, Int.natAbs_ofNat]
  · norm_num +decide [interpolate_segment, List.range_succ]

set_option maxHeartbeats 4000000 in
/-- Counterexample to C2 as stated: against a flat mesh of height 7, in the
program `G1 X0 Y0 Z1` / `G1 X10 Y0 Z2` the 6th interpolated point of the
first processed segment (index 5, original Z = 1.5) is still emitted with
the absolute placement Z = 7, not with the relative value 7 − |1.5| — the
rewriter stays in first-cut mode for the whole first segment, not only for
its first point. -/
theorem first_cut_extent_counterexample :
    (modify_gcode trigZero (some [((0, 0, 7), (0, 0, 7), (0, 0, 7))]) 10 20
        [toChars "G1 X0 Y0 Z1", toChars "G1 X10 Y0 Z2"])[6]? =
      some (toChars "G1 X5.0000 Y0.0000 Z7.0000 F0.0\n") ∧
    (interpolate_segment ⟨0, 0, 1, 0⟩ ⟨10, 0, 2, 0⟩ 10)[5]? =
      some ⟨5, 0, 3 / 2, some 0⟩ ∧
    (7 : ℚ) ≠ 7 - |(3 : ℚ) / 2| := by
  refine ⟨?_, ?_, by rw [abs_of_pos (by norm_num : (0 : ℚ) < 3 / 2)]; norm_num⟩
  · norm_num +decide [modify_gcode, stepLine, linearBody, arcBody, parse_coordinates,
      parseTok, splitWS, parseFloat, parseExpPart, parseSign, takeDigits, strip, isSpc,
      toChars, digitsVal, digVal, digChar, interpolate_segment, emitPoints, conformPoint,
      ptCoords, get_z_height_from_stl, nearestCentroidZ, centroid, dist2,
      generate_gcode_line, renderFixed, renderNat, renderNatPad, defaultAxis, defaulted,
      mkCur, firstTok, zNumSearch, matchSigned, matchUnsigned, gOne, gZero, gTwo,
      emptyCoords, setX, setY, setZ, setF, setS, setI, setJ, List.foldl, List.range_succ,
      List.isPrefixOf, List.contains, List.dropWhile, List.takeWhile, round_zero,
      round_natCast, round_ofNat, round_one, Nat.digits_def', Nat.digits_zero,
      Int.natAbs_ofNat]
  · norm_num +decide [interpolate_segment, List.range_succ]

set_option maxHeartbeats 8000000 in
/-- Counterexample to C5 as stated: the rewriter does not treat a G2 with
both center offsets absent as a single move to the end coordinate — on
`G1 X0 Y0 Z0` / `G2 X5 Y0 Z0` it expands a radius-zero arc into
`arc_steps + 1 = 21` points, all at the start X/Y (0,0), never reaching
X = 5. -/
theorem degenerate_arc_counterexample :
    (modify_gcode trigZero none 10 20 [toChars "G1 X0 Y0 Z0", toChars "G2 X5 Y0 Z0"]).length
        = 22 ∧
    (modify_gcode trigZero none 10 20 [toChars "G1 X0 Y0 Z0", toChars "G2 X5 Y0 Z0"])[2]? =
      some (toChars "G1 X0.0000 Y0.0000 Z0.0000\n") ∧
    (modify_gcode trigZero none 10 20 [toChars "G1 X0 Y0 Z0", toChars "G2 X5 Y0 Z0"])[21]? =
      some (toChars "G1 X0.0000 Y0.0000 Z0.0000\n") := by
  refine ⟨?_, ?_, ?_⟩ <;>
    norm_num +decide [modify_gcode, stepLine, linearBody, arcBody, parse_coordinates,
      parseTok, splitWS, parseFloat, parseExpPart, parseSign, takeDigits, strip, isSpc,
      toChars, digitsVal, digVal, digChar, interpolate_segment, interpolate_arc,
      normalizeEndAngleInterp, trigZero, emitPoints, conformPoint, ptCoords,
      get_z_height_from_stl, generate_gcode_line, renderFixed, renderNat, renderNatPad,
      defaultAxis, defaulted, mkCur, firstTok, zNumSearch, matchSigned, matchUnsigned,
      gOne, gZero, gTwo, emptyCoords, setX, setY, setZ, setF, setS, setI, setJ,
      List.foldl, List.range_succ, List.isPrefixOf, List.contains, List.dropWhile,
      List.takeWhile, round_zero, round_natCast, round_ofNat, round_one, Nat.digits_def',
      Nat.digits_zero, Int.natAbs_ofNat]

/-- Counterexample to C6 as stated: `parse_gcode` on the single line
`G1 Xabc` aborts the whole parse — the line contains the letter X, the
regex search for `X([-+]?\d*\.?\d+)` finds nothing, and `.group(1)` on
`None` raises `AttributeError` (modelled as `Except.error`). -/
theorem malformed_token_counterexample :
    parse_gcode trigZero [toChars "G1 Xabc"] = Except.error () := by
  norm_num +decide [parse_gcode, parse_gcode_step, axisRead, regexSearchAxis, matchSigned,
    matchUnsigned, takeDigits, strip, toChars, isSpc, gOne, gZero, gTwo, gThree,
    List.foldlM, Except.bind, bind, List.isPrefixOf, List.contains, digitsVal,
    List.dropWhile, List.takeWhile]

lemma isPrefixOf_pair (c d : Char) (l : Line) :
    [c, d].isPrefixOf l = true ↔ ∃ r, l = c :: d :: r := by
  cases l with
  | nil => simp [List.isPrefixOf]
  | cons a t =>
    cases t with
    | nil => simp [List.isPrefixOf]
    | cons b u =>
      constructor
      · intro h
        simp only [List.isPrefixOf, Bool.and_eq_true, beq_iff_eq] at h
        exact ⟨u, by simp [h.1, h.2]⟩
      · rintro ⟨r, hr⟩
        cases hr
        simp [List.isPrefixOf]

/-- C6 (amended): `parse_coordinates` treats a token whose numeric suffix
fails to parse as an absent (`None`) field and goes on folding the rest of
the line's tokens; but `parse_gcode` aborts the whole parse on a G1 line
that contains an axis letter with no parsable number after any occurrence
of it (the `AttributeError` of `.group(1)` on a failed `re.search`). -/
theorem malformed_token_amended :
    (∀ (pre post : List Line) (r : Line), parseFloat r = none →
      (pre ++ ('X' :: r) :: post).foldl parseTok emptyCoords =
        post.foldl parseTok (setX (pre.foldl parseTok emptyCoords) none)) ∧
    (∀ (L : TrigLib) (acc : List (ℚ × ℚ × ℚ) × (ℚ × ℚ × ℚ)) (line : Line),
      gOne.isPrefixOf (strip line) = true →
      (strip line).contains 'X' = true →
      regexSearchAxis 'X' (strip line) = none →
      parse_gcode_step L acc line = Except.error ()) := by
  constructor
  · intro pre post r hr
    rw [List.foldl_append, List.foldl_cons]
    simp [parseTok, hr]
  · intro L acc line h1 h2 h3
    have h2m : 'X' ∈ strip line := by simpa using h2
    simp only [parse_gcode_step, h1, Bool.true_or, if_true]
    simp [axisRead, h2m, h3, Except.bind, bind]

/-- Witness for the C6 amended theorem at concrete inputs: the token
`Xabc` yields an absent X field while the fold continues, and
`parse_gcode_step` on the line `G1 Xabc` errors. -/
theorem malformed_token_amended_witness :
    (parseFloat (toChars "abc") = none ∧
      ([toChars "G1"] ++ ('X' :: toChars "abc") :: [toChars "Y2"]).foldl parseTok emptyCoords =
        [toChars "Y2"].foldl parseTok (setX ([toChars "G1"].foldl parseTok emptyCoords) none)) ∧
    (gOne.isPrefixOf (strip (toChars "G1 Xabc")) = true ∧
      (strip (toChars "G1 Xabc")).contains 'X' = true ∧
      regexSearchAxis 'X' (strip (toChars "G1 Xabc")) = none ∧
      parse_gcode_step trigZero ([], (0, 0, 1 / 5)) (toChars "G1 Xabc") = Except.error ()) := by
  refine ⟨⟨by decide, malformed_token_amended.1 [toChars "G1"] [toChars "Y2"] (toChars "abc")
      (by decide)⟩,
    ⟨by decide, by decide, by decide,
      malformed_token_amended.2 trigZero ([], (0, 0, 1 / 5)) (toChars "G1 Xabc")
        (by decide) (by decide) (by decide)⟩⟩

/-- C5 (amended): with both center offsets absent, `interpolate_arc` (the
rewriter's arc expansion) substitutes 0 for I and J, so for any square-root
backend with `sqrt 0 = 0` it produces `steps + 1` points all at the start
X/Y (a degenerate radius-zero arc), with only Z interpolated — not a single
move to the end coordinate; `parse_gcode`, in contrast, does fall back to
appending exactly one point at the end coordinate whenever I or J is
absent. -/
theorem degenerate_arc_amended :
    (∀ (L : TrigLib) (sx sy sz ex ey ez : ℚ) (f : Option ℚ) (steps : ℕ),
      L.sqrtQ 0 = 0 →
      interpolate_arc L sx sy sz ex ey ez f none none steps =
        (List.range (steps + 1)).map fun (i : ℕ) =>
          ⟨sx, sy, sz + (ez - sz) * ((i : ℚ) / (steps : ℚ)), f⟩) ∧
    (∀ (L : TrigLib) (pts : List (ℚ × ℚ × ℚ)) (x y z : ℚ) (line : Line),
      (gTwo.isPrefixOf (strip line) || gThree.isPrefixOf (strip line)) = true →
      (lookupLast (findAxisNums (strip line)) 'I' = none ∨
        lookupLast (findAxisNums (strip line)) 'J' = none) →
      parse_gcode_step L (pts, (x, y, z)) line =
        Except.ok (pts ++ [((lookupLast (findAxisNums (strip line)) 'X').getD x,
                             (lookupLast (findAxisNums (strip line)) 'Y').getD y, z)],
                   ((lookupLast (findAxisNums (strip line)) 'X').getD x,
                    (lookupLast (findAxisNums (strip line)) 'Y').getD y, z))) := by
  constructor
  · intro L sx sy sz ex ey ez f steps hsqrt
    have h0 : (0 : ℚ) ^ 2 + (0 : ℚ) ^ 2 = 0 := by norm_num
    simp only [interpolate_arc, Option.getD_none, h0, hsqrt]
    refine List.map_congr_left fun i _ => ?_
    have hx : sx + 0 = sx := by ring
    have hy : sy + 0 = sy := by ring
    simp only [hx, hy]
    simp only [Pt.mk.injEq]
    refine ⟨by ring, by ring, by ring, by trivial⟩
  · intro L pts x y z line hpre hIJ
    have hshape : ∃ r, strip line = 'G' :: '2' :: r ∨ strip line = 'G' :: '3' :: r := by
      rcases Bool.or_eq_true_iff.mp hpre with h | h
      · obtain ⟨r, hr⟩ := (isPrefixOf_pair _ _ (strip line)).mp h
        exact ⟨r, Or.inl hr⟩
      · obtain ⟨r, hr⟩ := (isPrefixOf_pair _ _ (strip line)).mp h
        exact ⟨r, Or.inr hr⟩
    have hnot01 : (gOne.isPrefixOf (strip line) || gZero.isPrefixOf (strip line)) = false := by
      obtain ⟨r, hr | hr⟩ := hshape <;> rw [hr] <;> simp [gOne, gZero, List.isPrefixOf]
    simp only [parse_gcode_step, hnot01, Bool.false_eq_true, if_false, hpre, if_true]
    rcases hI : lookupLast (findAxisNums (strip line)) 'I' with _ | i
    · simp
    · rcases hJ : lookupLast (findAxisNums (strip line)) 'J' with _ | j
      · simp
      · rcases hIJ with h | h
        · rw [hI] at h; cases h
        · rw [hJ] at h; cases h

/-- Witness for the C5 amended theorem: a degenerate `G2 X5 Y0` with a
start at the origin. -/
theorem degenerate_arc_amended_witness :
    (trigZero.sqrtQ 0 = 0 ∧
      interpolate_arc trigZero 0 0 0 5 0 0 none none none 2 =
        (List.range (2 + 1)).map fun (i : ℕ) =>
          (⟨0, 0, 0 + (0 - 0) * ((i : ℚ) / ((2 : ℕ) : ℚ)), none⟩ : Pt)) ∧
    ((gTwo.isPrefixOf (strip (toChars "G2 X5 Y0")) ||
        gThree.isPrefixOf (strip (toChars "G2 X5 Y0"))) = true ∧
      lookupLast (findAxisNums (strip (toChars "G2 X5 Y0"))) 'I' = none ∧
      parse_gcode_step trigZero ([], (0, 0, 0)) (toChars "G2 X5 Y0") =
        Except.ok ([((lookupLast (findAxisNums (strip (toChars "G2 X5 Y0"))) 'X').getD 0,
                      (lookupLast (findAxisNums (strip (toChars "G2 X5 Y0"))) 'Y').getD 0, 0)],
                   ((lookupLast (findAxisNums (strip (toChars "G2 X5 Y0"))) 'X').getD 0,
                    (lookupLast (findAxisNums (strip (toChars "G2 X5 Y0"))) 'Y').getD 0, 0))) := by
  have hI : lookupLast (findAxisNums (strip (toChars "G2 X5 Y0"))) 'I' = none := by
    norm_num +decide [findAxisNums, lookupLast, matchSigned, matchUnsigned, takeDigits,
      strip, isSpc, toChars, List.foldl, List.dropWhile, List.takeWhile, Char.isDigit,
      decide_eq_true_eq]
  refine ⟨⟨rfl, degenerate_arc_amended.1 trigZero 0 0 0 5 0 0 none 2 rfl⟩,
    ⟨by decide, hI,
      degenerate_arc_amended.2 trigZero [] 0 0 0 (toChars "G2 X5 Y0") (by decide) (Or.inl hI)⟩⟩

/-! Monotonicity helpers for the angle sequences. -/

lemma pairwise_map_range {R : ℚ → ℚ → Prop} (f : ℕ → ℚ) (n : ℕ)
    (hf : ∀ i j, i < j → j < n → R (f i) (f j)) :
    ((List.range n).map f).Pairwise R := by
  rw [List.pairwise_iff_getElem]
  intro i j hi hj hij
  simp only [List.length_map, List.length_range] at hi hj
  simp only [List.getElem_map, List.getElem_range]
  exact hf i j hij hj

lemma arc_term_mono {a b d : ℚ} (hba : a ≤ b) (hd : 0 ≤ d) {i j : ℕ} (hij : i ≤ j) :
    a + (b - a) * ((i : ℚ) / d) ≤ a + (b - a) * ((j : ℚ) / d) := by
  rcases eq_or_lt_of_le hd with h0 | hd'
  · rw [← h0]; simp
  · have hij2 : (i : ℚ) / d ≤ (j : ℚ) / d :=
      (div_le_div_right hd').mpr (by exact_mod_cast hij)
    have := mul_le_mul_of_nonneg_left hij2 (by linarith : (0 : ℚ) ≤ b - a)
    linarith

lemma arc_term_anti {a b d : ℚ} (hba : b ≤ a) (hd : 0 ≤ d) {i j : ℕ} (hij : i ≤ j) :
    a + (b - a) * ((j : ℚ) / d) ≤ a + (b - a) * ((i : ℚ) / d) := by
  rcases eq_or_lt_of_le hd with h0 | hd'
  · rw [← h0]; simp
  · have hij2 : (i : ℚ) / d ≤ (j : ℚ) / d :=
      (div_le_div_right hd').mpr (by exact_mod_cast hij)
    have := mul_le_mul_of_nonpos_left hij2 (by linarith : b - a ≤ 0)
    linarith

/-- C4 (amended): `parse_gcode`'s normalization is direction-dependent as
the claim states, making its sampled angle sequence monotonically
non-decreasing for CW and non-increasing for CCW (for genuine `atan2`
angles, whose difference is at most 2π); but `interpolate_arc` applies the
subtract-2π rule with no direction test — identical to the CCW-only rule —
so its angle sequence is monotonically non-increasing for every arc, and
for a CW arc with end angle below start angle nothing is added. -/
theorem arc_direction_amended (two_pi sa ea : ℚ) (n steps : ℕ)
    (hrange : |ea - sa| ≤ two_pi) :
    (linspaceQ sa (normalizeEndAngleParse two_pi true sa ea) n).Pairwise (· ≤ ·) ∧
    (linspaceQ sa (normalizeEndAngleParse two_pi false sa ea) n).Pairwise (· ≥ ·) ∧
    (arcThetas sa (normalizeEndAngleInterp two_pi sa ea) steps).Pairwise (· ≥ ·) ∧
    normalizeEndAngleInterp two_pi sa ea = normalizeEndAngleParse two_pi false sa ea := by
  have h1 : ea - sa ≤ two_pi := le_trans (le_abs_self _) hrange
  have h2 : sa - ea ≤ two_pi := le_trans (by rw [abs_sub_comm]; exact le_abs_self _) hrange
  have hcw : sa ≤ normalizeEndAngleParse two_pi true sa ea := by
    unfold normalizeEndAngleParse
    rw [if_pos rfl]
    split_ifs with h <;> linarith
  have hccw : normalizeEndAngleParse two_pi false sa ea ≤ sa := by
    unfold normalizeEndAngleParse
    rw [if_neg Bool.false_ne_true]
    split_ifs with h <;> linarith
  have hinterp : normalizeEndAngleInterp two_pi sa ea =
      normalizeEndAngleParse two_pi false sa ea := rfl
  refine ⟨?_, ?_, ?_, hinterp⟩
  · unfold linspaceQ
    apply pairwise_map_range
    intro i j hij hj
    rcases n with _ | m
    · omega
    · have hd : (0 : ℚ) ≤ ((m + 1 : ℕ) : ℚ) - 1 := by
        push_cast; linarith [Nat.cast_nonneg (α := ℚ) m]
      rw [mul_div_assoc, mul_div_assoc]
      exact arc_term_mono hcw hd (le_of_lt hij)
  · unfold linspaceQ
    apply pairwise_map_range
    intro i j hij hj
    rcases n with _ | m
    · omega
    · have hd : (0 : ℚ) ≤ ((m + 1 : ℕ) : ℚ) - 1 := by
        push_cast; linarith [Nat.cast_nonneg (α := ℚ) m]
      rw [mul_div_assoc, mul_div_assoc]
      exact arc_term_anti hccw hd (le_of_lt hij)
  · unfold arcThetas
    apply pairwise_map_range
    intro i j hij hj
    rw [hinterp]
    exact arc_term_anti hccw (Nat.cast_nonneg steps) (le_of_lt hij)

/-- Witness for the C4 amended theorem at concrete angles. -/
theorem arc_direction_amended_witness :
    |(2 : ℚ) - 1| ≤ 7 ∧
    ((linspaceQ 1 (normalizeEndAngleParse 7 true 1 2) 5).Pairwise (· ≤ ·) ∧
     (linspaceQ 1 (normalizeEndAngleParse 7 false 1 2) 5).Pairwise (· ≥ ·) ∧
     (arcThetas 1 (normalizeEndAngleInterp 7 1 2) 4).Pairwise (· ≥ ·) ∧
     normalizeEndAngleInterp 7 1 2 = normalizeEndAngleParse 7 false 1 2) := by
  refine ⟨by norm_num, ?_⟩
  exact arc_direction_amended 7 1 2 5 4 (by norm_num)

/-- Counterexample to C4 as stated: for a CW (G2) arc processed by the
rewriter's `interpolate_arc` with end angle 0 below start angle 1, no 2π is
added (the normalized end angle stays 0 ≠ 0 + 2π) and the resulting angle
sequence 1, 1/2, 0 is strictly decreasing, not monotonically
non-decreasing. -/
theorem arc_direction_counterexample :
    normalizeEndAngleInterp (628 / 100) 1 0 = 0 ∧
    (0 : ℚ) ≠ 0 + 628 / 100 ∧
    arcThetas 1 (normalizeEndAngleInterp (628 / 100) 1 0) 2 = [1, 1 / 2, 0] ∧
    ¬ (arcThetas 1 (normalizeEndAngleInterp (628 / 100) 1 0) 2).Pairwise (· ≤ ·) := by
  have he : normalizeEndAngleInterp (628 / 100 : ℚ) 1 0 = 0 := by
    unfold normalizeEndAngleInterp
    norm_num
  have hl : arcThetas 1 (normalizeEndAngleInterp (628 / 100 : ℚ) 1 0) 2 = [1, 1 / 2, 0] := by
    rw [he]
    unfold arcThetas
    norm_num [List.range_succ]
  refine ⟨he, by norm_num, hl, ?_⟩
  rw [hl]
  intro hp
  rcases List.pairwise_cons.mp hp with ⟨hhead, _⟩
  have := hhead (1 / 2) (by simp)
  norm_num at this

/-! Flag behaviour of the rewriter's step function. -/

lemma linearBody_first_cut (mesh : Option (List Tri)) (steps : ℕ) (st : MState) (line : Line) :
    (linearBody mesh steps st line).first_cut = st.first_cut ∨
    (linearBody mesh steps st line).first_cut = false := by
  unfold linearBody
  split_ifs <;> simp

lemma arcBody_first_cut (L : TrigLib) (mesh : Option (List Tri)) (asteps : ℕ)
    (st : MState) (line : Line) :
    (arcBody L mesh asteps st line).first_cut = st.first_cut ∨
    (arcBody L mesh asteps st line).first_cut = false := by
  unfold arcBody
  split_ifs <;> simp

lemma stepLine_first_cut (L : TrigLib) (mesh : Option (List Tri)) (steps asteps : ℕ)
    (st : MState) (line : Line) :
    (stepLine L mesh steps asteps st line).first_cut = st.first_cut ∨
    (stepLine L mesh steps asteps st line).first_cut = false := by
  unfold stepLine
  dsimp only
  repeat' split
  all_goals
    first
      | exact Or.inl rfl
      | exact Or.inr rfl
      | apply linearBody_first_cut
      | apply arcBody_first_cut

/-- C2 (amended): in first-cut mode, every sampled point of a segment —
at any index, not only the first — is emitted with the absolute placement;
a G1 command processed with a known current position clears the first-cut
flag only after emitting its whole interpolated segment, all of it
conformed under the mode that was current when the command started; and
once the flag is false no later command ever sets it back. -/
theorem first_cut_extent_amended :
    (∀ (sample : ℚ → ℚ → Option ℚ) (pts : List Pt) (k : ℕ) (pt : Pt) (h : ℚ),
      pts[k]? = some pt → sample pt.X pt.Y = some h →
      (emitPoints sample true pts)[k]? =
        some (generate_gcode_line (ptCoords ⟨pt.X, pt.Y, h, pt.F⟩) gOne)) ∧
    (∀ (L : TrigLib) (mesh : Option (List Tri)) (steps asteps : ℕ) (st : MState)
      (line : Line) (x y : ℚ), st.cur.X = some x → st.cur.Y = some y →
      gOne.isPrefixOf line = true →
      (stepLine L mesh steps asteps st line).first_cut = false ∧
      (stepLine L mesh steps asteps st line).out = st.out ++
        emitPoints (get_z_height_from_stl mesh) st.first_cut
          (interpolate_segment ⟨x, y, st.cur.Z.getD 0, st.cur.F.getD 0⟩
            (defaulted (parse_coordinates line) st.cur) steps)) ∧
    (∀ (L : TrigLib) (mesh : Option (List Tri)) (steps asteps : ℕ) (st : MState) (line : Line),
      st.first_cut = false → (stepLine L mesh steps asteps st line).first_cut = false) := by
  refine ⟨?_, ?_, ?_⟩
  · intro sample pts k pt h hk hs
    simp only [emitPoints, List.getElem?_map, hk, Option.map_some', conformPoint, hs]
    simp
  · intro L mesh steps asteps st line x y hx hy hpre
    obtain ⟨r, hr⟩ := (isPrefixOf_pair 'G' '1' line).mp hpre
    have h0 : gZero.isPrefixOf line = false := by
      rw [hr]; simp [gZero, List.isPrefixOf]
    have h2 : gTwo.isPrefixOf line = false := by
      rw [hr]; simp [gTwo, List.isPrefixOf]
    unfold stepLine
    rw [h0, hpre]
    simp only [Bool.false_and, Bool.false_eq_true, if_false, Bool.false_or, if_true]
    unfold linearBody
    rw [hx, hy]
    simp only [reduceCtorEq, or_self, if_false]
    simp [hx, hy]
  · intro L mesh steps asteps st line hfc
    rcases stepLine_first_cut L mesh steps asteps st line with h | h
    · rw [h, hfc]
    · exact h

/-- Witness for the C2 amended theorem: a second point (index 1) in
first-cut mode gets the absolute Z; a concrete G1 step clears the flag and
emits its segment; a step from a cleared flag keeps it cleared. -/
theorem first_cut_extent_amended_witness :
    (([⟨0, 0, 5, none⟩, ⟨1, 0, 6, none⟩] : List Pt)[1]? = some (⟨1, 0, 6, none⟩ : Pt) ∧
      (fun _ _ => some (9 : ℚ)) (1 : ℚ) (0 : ℚ) = some (9 : ℚ) ∧
      (emitPoints (fun _ _ => some (9 : ℚ)) true [⟨0, 0, 5, none⟩, ⟨1, 0, 6, none⟩])[1]? =
        some (generate_gcode_line (ptCoords ⟨1, 0, 9, none⟩) gOne)) ∧
    ((⟨[], true, ⟨some 0, some 0, some 0, some 0, none, none, none⟩, none⟩ : MState).cur.X
        = some 0 ∧
      gOne.isPrefixOf (toChars "G1 X1") = true ∧
      (stepLine trigZero none 1 1
        ⟨[], true, ⟨some 0, some 0, some 0, some 0, none, none, none⟩, none⟩
        (toChars "G1 X1")).first_cut = false) ∧
    ((⟨[], false, emptyCoords, none⟩ : MState).first_cut = false ∧
      (stepLine trigZero none 1 1 ⟨[], false, emptyCoords, none⟩
        (toChars "M30")).first_cut = false) := by
  refine ⟨⟨rfl, rfl, ?_⟩, ⟨rfl, by decide, ?_⟩, ⟨rfl, ?_⟩⟩
  · exact first_cut_extent_amended.1 (fun _ _ => some 9) [⟨0, 0, 5, none⟩, ⟨1, 0, 6, none⟩]
      1 ⟨1, 0, 6, none⟩ 9 rfl rfl
  · exact (first_cut_extent_amended.2.1 trigZero none 1 1
      ⟨[], true, ⟨some 0, some 0, some 0, some 0, none, none, none⟩, none⟩
      (toChars "G1 X1") 0 0 rfl rfl (by decide)).1
  · exact first_cut_extent_amended.2.2 trigZero none 1 1 ⟨[], false, emptyCoords, none⟩
      (toChars "M30") rfl

/-! Convergence of the height-map smoother. -/

lemma hstep_snd_true (t : ℚ) (s : Grid × Bool) (j i : ℕ) (h : s.2 = true) :
    (hstep t s j i).2 = true := by
  unfold hstep
  dsimp only
  split_ifs <;> simp_all

lemma vstep_snd_true (t : ℚ) (s : Grid × Bool) (j i : ℕ) (h : s.2 = true) :
    (vstep t s j i).2 = true := by
  unfold vstep
  dsimp only
  split_ifs <;> simp_all

lemma visitCell_snd_true (t : ℚ) (s : Grid × Bool) (p : ℕ × ℕ) (h : s.2 = true) :
    (visitCell t s p).2 = true := by
  unfold visitCell
  exact vstep_snd_true _ _ _ _ (hstep_snd_true _ _ _ _ h)

lemma foldl_visit_snd_true (t : ℚ) (L : List (ℕ × ℕ)) (s : Grid × Bool) (h : s.2 = true) :
    (L.foldl (visitCell t) s).2 = true := by
  induction L generalizing s with
  | nil => exact h
  | cons p L ih => exact ih _ (visitCell_snd_true t s p h)

lemma hstep_false_eq (t : ℚ) (g g2 : Grid) (j i : ℕ)
    (h : hstep t (g, false) j i = (g2, false)) : g2 = g := by
  unfold hstep at h
  dsimp only at h
  split_ifs at h <;> simp_all

lemma vstep_false_eq (t : ℚ) (g g2 : Grid) (j i : ℕ)
    (h : vstep t (g, false) j i = (g2, false)) : g2 = g := by
  unfold vstep at h
  dsimp only at h
  split_ifs at h <;> simp_all

lemma visitCell_false_cases (t : ℚ) (g : Grid) (p : ℕ × ℕ) :
    visitCell t (g, false) p = (g, false) ∨ (visitCell t (g, false) p).2 = true := by
  rcases hh : hstep t (g, false) p.1 p.2 with ⟨g2, b⟩
  cases b
  · have hg2 : g2 = g := hstep_false_eq t g g2 p.1 p.2 hh
    subst hg2
    rcases hv : vstep t (g2, false) p.1 p.2 with ⟨g3, b2⟩
    cases b2
    · have hg3 : g3 = g2 := vstep_false_eq t g2 g3 p.1 p.2 hv
      subst hg3
      left
      unfold visitCell
      rw [hh, hv]
    · right
      unfold visitCell
      rw [hh, hv]
  · right
    unfold visitCell
    rw [hh]
    exact vstep_snd_true _ _ _ _ rfl

lemma foldl_visit_false (t : ℚ) (L : List (ℕ × ℕ)) (g : Grid)
    (h : (L.foldl (visitCell t) (g, false)).2 = false) :
    L.foldl (visitCell t) (g, false) = (g, false) ∧
    ∀ p ∈ L, visitCell t (g, false) p = (g, false) := by
  induction L with
  | nil => exact ⟨rfl, by simp⟩
  | cons p L ih =>
    have h1 : visitCell t (g, false) p = (g, false) := by
      rcases visitCell_false_cases t g p with he | ht
      · exact he
      · exfalso
        rw [List.foldl_cons] at h
        have := foldl_visit_snd_true t L _ ht
        rw [this] at h
        cases h
    rw [List.foldl_cons, h1] at h
    obtain ⟨ha, hb⟩ := ih h
    refine ⟨by rw [List.foldl_cons, h1]; exact ha, ?_⟩
    intro q hq
    rcases List.mem_cons.mp hq with rfl | hq2
    · exact h1
    · exact hb q hq2

lemma visitCell_false_bounds (t : ℚ) (g : Grid) (j i : ℕ)
    (h : visitCell t (g, false) (j, i) = (g, false)) :
    (i + 1 < g.cols → |g.val j (i + 1) - g.val j i| ≤ t) ∧
    (j + 1 < g.rows → |g.val (j + 1) i - g.val j i| ≤ t) := by
  have hsnd : (visitCell t (g, false) (j, i)).2 = false := by rw [h]
  have hh : (hstep t (g, false) j i).2 = false := by
    by_contra hc
    have : (hstep t (g, false) j i).2 = true := by
      cases he : (hstep t (g, false) j i).2
      · exact absurd he hc
      · rfl
    have := vstep_snd_true t _ j i this
    unfold visitCell at hsnd
    simp only [this] at hsnd
    cases hsnd
  have hheq : hstep t (g, false) j i = (g, false) := by
    rcases he : hstep t (g, false) j i with ⟨g2, b⟩
    rw [he] at hh
    cases b
    · rw [hstep_false_eq t g g2 j i he]
    · cases hh
  constructor
  · intro hc
    by_contra habs
    push_neg at habs
    have hab : |g.val j (i + 1) - g.val j i| > t := habs
    have htrue : (hstep t (g, false) j i).2 = true := by
      unfold hstep
      dsimp only
      rw [if_pos hc, if_pos hab]
    rw [hheq] at htrue
    cases htrue
  · intro hc
    by_contra habs
    push_neg at habs
    have hab : |g.val (j + 1) i - g.val j i| > t := habs
    have hv : (visitCell t (g, false) (j, i)).2 = true := by
      unfold visitCell
      rw [hheq]
      unfold vstep
      dsimp only
      rw [if_pos hc, if_pos hab]
    rw [h] at hv
    cases hv

lemma mem_gridIndices (r c j i : ℕ) (hj : j < r) (hi : i < c) :
    (j, i) ∈ gridIndices r c := by
  unfold gridIndices
  rw [List.mem_flatMap]
  exact ⟨j, List.mem_range.mpr hj, List.mem_map.mpr ⟨i, List.mem_range.mpr hi, rfl⟩⟩

lemma sweep_false (t : ℚ) (g g2 : Grid) (h : sweep t g = (g2, false)) :
    g2 = g ∧ smoothOk g t := by
  have hsnd : ((gridIndices g.rows g.cols).foldl (visitCell t) (g, false)).2 = false := by
    unfold sweep at h
    rw [h]
  obtain ⟨hall, hper⟩ := foldl_visit_false t _ g hsnd
  have hg2 : g2 = g := by
    unfold sweep at h
    rw [hall] at h
    cases h
    rfl
  refine ⟨hg2, ?_, ?_⟩
  · intro j i hj hic
    exact (visitCell_false_bounds t g j i
      (hper (j, i) (mem_gridIndices _ _ _ _ hj (by omega)))).1 hic
  · intro j i hjr hic
    exact (visitCell_false_bounds t g j i
      (hper (j, i) (mem_gridIndices _ _ _ _ (by omega) hic))).2 hjr

/-- C7: for every grid, threshold `t > 0` and pass budget `m`, the smoother
returns either the result of `m` unconditional full passes, or a grid in
which no horizontally or vertically adjacent pair of cells differs by more
than the threshold (the early stop happens exactly on a pass with zero
adjustments, and such a pass both leaves the grid unchanged and certifies
all pairwise bounds on it). -/
theorem smooth_height_map_spec (g : Grid) (t : ℚ) (m : ℕ) (ht : 0 < t) :
    smooth_height_map g t m = sweepN t m g ∨
    smoothOk (smooth_height_map g t m) t := by
  induction m generalizing g with
  | zero => exact Or.inl rfl
  | succ m ih =>
    have hunf : smooth_height_map g t (m + 1) =
        if (sweep t g).2 = true then smooth_height_map (sweep t g).1 t m
        else (sweep t g).1 := rfl
    rcases hs : sweep t g with ⟨g2, b⟩
    rw [hs] at hunf
    cases b
    · obtain ⟨hg2, hok⟩ := sweep_false t g g2 hs
      right
      rw [hunf]
      simp only [Bool.false_eq_true, if_false]
      rw [hg2]
      exact hok
    · have hsw : sweepN t (m + 1) g = sweepN t m g2 := by
        have h0 : sweepN t (m + 1) g = sweepN t m (sweep t g).1 := rfl
        rw [h0, hs]
      rw [hunf]
      simp only [if_true]
      rw [hsw]
      exact ih g2

/-- Witness for C7 at the spec's example grid: the 1×3 row (0, 10, 0) with
threshold 1/2 and ten iterations. -/
theorem smooth_height_map_spec_witness :
    (0 : ℚ) < 1 / 2 ∧
    (smooth_height_map ⟨1, 3, fun j i => if j = 0 ∧ i = 1 then 10 else 0⟩ (1 / 2) 10 =
        sweepN (1 / 2) 10 ⟨1, 3, fun j i => if j = 0 ∧ i = 1 then 10 else 0⟩ ∨
      smoothOk (smooth_height_map ⟨1, 3, fun j i => if j = 0 ∧ i = 1 then 10 else 0⟩
        (1 / 2) 10) (1 / 2)) := by
  exact ⟨by norm_num,
    smooth_height_map_spec ⟨1, 3, fun j i => if j = 0 ∧ i = 1 then 10 else 0⟩ (1 / 2) 10
      (by norm_num)⟩

/-! Facts about the decimal renderer, towards the generate/parse round
trip (C8). -/

lemma isDigit_digChar (d : ℕ) : (digChar d).isDigit = true := by
  unfold digChar
  split_ifs <;> decide

lemma digVal_digChar {d : ℕ} (hd : d < 10) : digVal (digChar d) = d := by
  interval_cases d <;> decide

lemma isDigit_mem_renderNat (n : ℕ) : ∀ c ∈ renderNat n, c.isDigit = true := by
  intro c hc
  unfold renderNat at hc
  split_ifs at hc
  · rw [List.mem_singleton] at hc
    subst hc
    decide
  · rw [List.mem_reverse, List.mem_map] at hc
    obtain ⟨d, _, rfl⟩ := hc
    exact isDigit_digChar d

lemma renderNat_ne_nil (n : ℕ) : renderNat n ≠ [] := by
  unfold renderNat
  split_ifs with h
  · simp
  · simp [Nat.digits_ne_nil_iff_ne_zero.mpr h]

lemma isDigit_mem_renderNatPad (k n : ℕ) : ∀ c ∈ renderNatPad k n, c.isDigit = true := by
  intro c hc
  unfold renderNatPad at hc
  rw [List.mem_append] at hc
  rcases hc with h | h
  · rw [List.eq_of_mem_replicate h]
    decide
  · exact isDigit_mem_renderNat n c h

lemma digitsVal_step_reverse_map (ds : List ℕ) (hds : ∀ d ∈ ds, d < 10) (a : ℕ) :
    ((ds.map digChar).reverse).foldl (fun acc c => 10 * acc + digVal c) a =
      a * 10 ^ ds.length + Nat.ofDigits 10 ds := by
  induction ds generalizing a with
  | nil => simp [Nat.ofDigits_nil]
  | cons d t ih =>
    have hd : d < 10 := hds d (by simp)
    have ht : ∀ x ∈ t, x < 10 := fun x hx => hds x (by simp [hx])
    simp only [List.map_cons, List.reverse_cons, List.foldl_append, List.foldl_cons,
      List.foldl_nil, ih ht]
    rw [digVal_digChar hd, Nat.ofDigits_cons]
    simp only [List.length_cons, pow_succ]
    ring

lemma digitsVal_renderNat (n : ℕ) : digitsVal (renderNat n) = n := by
  unfold renderNat digitsVal
  split_ifs with h
  · subst h; decide
  · have := digitsVal_step_reverse_map (Nat.digits 10 n)
      (fun d hd => Nat.digits_lt_base (by norm_num) hd) 0
    rw [this, Nat.ofDigits_digits]
    ring

lemma digitsVal_append (u v : Line) :
    digitsVal (u ++ v) = v.foldl (fun acc c => 10 * acc + digVal c) (digitsVal u) := by
  unfold digitsVal
  rw [List.foldl_append]

lemma digitsVal_renderNatPad (k n : ℕ) : digitsVal (renderNatPad k n) = n := by
  unfold renderNatPad
  rw [digitsVal_append]
  have hz : ∀ z : ℕ, digitsVal (List.replicate z '0') = 0 := by
    intro z
    induction z with
    | zero => rfl
    | succ z ih =>
      unfold digitsVal at ih ⊢
      simp only [List.replicate_succ, List.foldl_cons]
      simpa [digVal] using ih
  rw [hz]
  exact digitsVal_renderNat n

lemma length_renderNat_le {k n : ℕ} (hk : 1 ≤ k) (h : n < 10 ^ k) :
    (renderNat n).length ≤ k := by
  unfold renderNat
  split_ifs with h0
  · simpa using hk
  · rw [List.length_reverse, List.length_map,
      Nat.digits_len 10 n (by norm_num) h0]
    have := Nat.log_lt_of_lt_pow h0 h
    omega

lemma length_renderNatPad {k n : ℕ} (hk : 1 ≤ k) (h : n < 10 ^ k) :
    (renderNatPad k n).length = k := by
  unfold renderNatPad
  rw [List.length_append, List.length_replicate]
  have := length_renderNat_le hk h
  omega

lemma takeWhile_all {p : Char → Bool} {l : Line} (hl : ∀ c ∈ l, p c = true) :
    l.takeWhile p = l ∧ l.dropWhile p = [] := by
  induction l with
  | nil => simp
  | cons c r ih =>
    have hc : p c = true := hl c (by simp)
    have ih2 := ih fun x hx => hl x (by simp [hx])
    simp [List.takeWhile_cons, List.dropWhile_cons, hc, ih2.1, ih2.2]

lemma takeWhile_append_stop {p : Char → Bool} {u : Line} (v : Line)
    (hu : ∀ c ∈ u, p c = true) (hv : v = [] ∨ ∃ c r, v = c :: r ∧ p c = false) :
    (u ++ v).takeWhile p = u ∧ (u ++ v).dropWhile p = v := by
  induction u with
  | nil =>
    rcases hv with rfl | ⟨c, r, rfl, hc⟩
    · simp
    · simp [List.takeWhile_cons, List.dropWhile_cons, hc]
  | cons c u ih =>
    have hc : p c = true := hu c (by simp)
    have ih2 := ih fun x hx => hu x (by simp [hx])
    simp [List.takeWhile_cons, List.dropWhile_cons, hc, ih2.1, ih2.2]

lemma isSpc_of_isDigit {c : Char} (h : c.isDigit = true) : isSpc c = false := by
  rcases he : isSpc c with _ | _
  · rfl
  · exfalso
    unfold isSpc at he
    simp only [Bool.or_eq_true, decide_eq_true_eq] at he
    rcases he with ((((h1 | h1) | h1) | h1) | h1) | h1 <;> subst h1 <;> cases h

lemma parseSign_not_sign {c : Char} (r : Line) (h1 : c ≠ '-') (h2 : c ≠ '+') :
    parseSign (c :: r) = (false, c :: r) := by
  unfold parseSign
  split
  · rename_i heq
    cases heq
    exact absurd rfl h1
  · rename_i heq
    cases heq
    exact absurd rfl h2
  · rfl

lemma strip_of_nonspace {l : Line} (h : ∀ c ∈ l, isSpc c = false) : strip l = l := by
  unfold strip
  have h1 : l.dropWhile isSpc = l := by
    cases l with
    | nil => rfl
    | cons c r =>
      rw [List.dropWhile_cons, h c (by simp)]
      simp
  rw [h1]
  have h2 : l.reverse.dropWhile isSpc = l.reverse := by
    cases hr : l.reverse with
    | nil => rfl
    | cons c r =>
      have hc : isSpc c = false := by
        apply h
        have hm : c ∈ l.reverse := by rw [hr]; simp
        exact List.mem_reverse.mp hm
      rw [List.dropWhile_cons, hc]
      simp
  rw [h2, List.reverse_reverse]

/-- Characters accepted by `Char.isDigit` are not sign characters. -/
lemma not_sign_of_isDigit {c : Char} (h : c.isDigit = true) : c ≠ '-' ∧ c ≠ '+' := by
  constructor <;> intro he <;> subst he <;> exact absurd h (by decide)

/-- Reading back a sign-and-fixed-point rendering of the integer `n`
scaled by `10^k` gives `n / 10^k`. -/
lemma parseFloat_renderScaled (k : ℕ) (n : ℤ) (hk : 1 ≤ k) :
    parseFloat ((if n < 0 then ['-'] else []) ++
      renderNat (n.natAbs / 10 ^ k) ++ '.' :: renderNatPad k (n.natAbs % 10 ^ k)) =
      some ((n : ℚ) / 10 ^ k) := by
  have hbk : n.natAbs % 10 ^ k < 10 ^ k := Nat.mod_lt _ (by positivity)
  have hdiga := isDigit_mem_renderNat (n.natAbs / 10 ^ k)
  have hdigp := isDigit_mem_renderNatPad k (n.natAbs % 10 ^ k)
  have htdL : takeDigits (renderNat (n.natAbs / 10 ^ k) ++
      '.' :: renderNatPad k (n.natAbs % 10 ^ k)) =
      (renderNat (n.natAbs / 10 ^ k), '.' :: renderNatPad k (n.natAbs % 10 ^ k)) := by
    unfold takeDigits
    have h := takeWhile_append_stop ('.' :: renderNatPad k (n.natAbs % 10 ^ k)) hdiga
      (Or.inr ⟨'.', renderNatPad k (n.natAbs % 10 ^ k), rfl, by decide⟩)
    rw [h.1, h.2]
  have htdp : takeDigits (renderNatPad k (n.natAbs % 10 ^ k)) =
      (renderNatPad k (n.natAbs % 10 ^ k), []) := by
    unfold takeDigits
    rw [(takeWhile_all hdigp).1, (takeWhile_all hdigp).2]
  have hval : (digitsVal (renderNat (n.natAbs / 10 ^ k)) : ℚ) +
      (digitsVal (renderNatPad k (n.natAbs % 10 ^ k)) : ℚ) /
        10 ^ (renderNatPad k (n.natAbs % 10 ^ k)).length = ((n.natAbs : ℚ)) / 10 ^ k := by
    rw [digitsVal_renderNat, digitsVal_renderNatPad, length_renderNatPad hk hbk]
    have hsplit : ((n.natAbs / 10 ^ k : ℕ) : ℚ) * 10 ^ k + ((n.natAbs % 10 ^ k : ℕ) : ℚ) =
        (n.natAbs : ℚ) := by
      have h := Nat.div_add_mod n.natAbs (10 ^ k)
      rw [Nat.mul_comm (10 ^ k) (n.natAbs / 10 ^ k)] at h
      exact_mod_cast h
    have h10 : (10 : ℚ) ^ k ≠ 0 := by positivity
    field_simp
    linarith [hsplit]
  have hnspL : ∀ c ∈ renderNat (n.natAbs / 10 ^ k) ++
      '.' :: renderNatPad k (n.natAbs % 10 ^ k), isSpc c = false := by
    intro c hc
    simp only [List.mem_append, List.mem_cons] at hc
    rcases hc with h | rfl | h
    · exact isSpc_of_isDigit (hdiga c h)
    · decide
    · exact isSpc_of_isDigit (hdigp c h)
  by_cases hneg : n < 0
  · rw [if_pos hneg]
    rw [show (['-'] ++ renderNat (n.natAbs / 10 ^ k) ++
        '.' :: renderNatPad k (n.natAbs % 10 ^ k)) =
        ('-' :: (renderNat (n.natAbs / 10 ^ k) ++
          '.' :: renderNatPad k (n.natAbs % 10 ^ k))) by
      rw [List.append_assoc]
      rfl]
    have hnsp : ∀ c ∈ '-' :: (renderNat (n.natAbs / 10 ^ k) ++
        '.' :: renderNatPad k (n.natAbs % 10 ^ k)), isSpc c = false := by
      intro c hc
      rcases List.mem_cons.mp hc with rfl | h
      · decide
      · exact hnspL c h
    unfold parseFloat
    dsimp only
    rw [strip_of_nonspace hnsp]
    rw [show parseSign ('-' :: (renderNat (n.natAbs / 10 ^ k) ++
        '.' :: renderNatPad k (n.natAbs % 10 ^ k))) =
        (true, renderNat (n.natAbs / 10 ^ k) ++
          '.' :: renderNatPad k (n.natAbs % 10 ^ k)) from rfl]
    simp only [htdL, htdp, List.head?_cons, List.tail_cons, if_true]
    rw [if_neg (fun h => renderNat_ne_nil _ h.1)]
    unfold parseExpPart
    rw [if_pos rfl]
    rw [hval]
    have hcast : ((n.natAbs : ℚ)) = -(n : ℚ) := by
      rw [Int.cast_natAbs, abs_of_neg hneg]
      push_cast
      ring
    rw [hcast]
    congr 1
    ring
  · rw [if_neg hneg, List.nil_append]
    have hsign : parseSign (renderNat (n.natAbs / 10 ^ k) ++
        '.' :: renderNatPad k (n.natAbs % 10 ^ k)) =
        (false, renderNat (n.natAbs / 10 ^ k) ++
          '.' :: renderNatPad k (n.natAbs % 10 ^ k)) := by
      rcases hre : renderNat (n.natAbs / 10 ^ k) with _ | ⟨c, u⟩
      · exact absurd hre (renderNat_ne_nil _)
      · have hc : c.isDigit = true := by
          apply isDigit_mem_renderNat (n.natAbs / 10 ^ k)
          rw [hre]
          simp
        rw [List.cons_append,
          parseSign_not_sign _ (not_sign_of_isDigit hc).1 (not_sign_of_isDigit hc).2]
    unfold parseFloat
    dsimp only
    rw [strip_of_nonspace hnspL, hsign]
    simp only [htdL, htdp, List.head?_cons, List.tail_cons, if_true]
    rw [if_neg (fun h => renderNat_ne_nil _ h.1)]
    unfold parseExpPart
    rw [if_pos rfl]
    rw [hval]
    have hcast : ((n.natAbs : ℚ)) = (n : ℚ) := by
      rw [Int.cast_natAbs, abs_of_nonneg (le_of_not_lt hneg)]
    rw [hcast]
    simp

/-- The value printed by `renderFixed` reads back as `n / 10^k` where `n`
is the rounded scaled integer. -/
lemma parseFloat_renderFixed (k : ℕ) (q : ℚ) (hk : 1 ≤ k) :
    parseFloat (renderFixed k q) =
      some ((round (q * (10 : ℚ) ^ k) : ℚ) / 10 ^ k) :=
  parseFloat_renderScaled k (round (q * (10 : ℚ) ^ k)) hk

/-- Reading back an integer rendering gives the integer. -/
lemma parseFloat_renderInt (m : ℤ) : parseFloat (renderInt m) = some (m : ℚ) := by
  have hdig := isDigit_mem_renderNat m.natAbs
  have htd : takeDigits (renderNat m.natAbs) = (renderNat m.natAbs, []) := by
    unfold takeDigits
    rw [(takeWhile_all hdig).1, (takeWhile_all hdig).2]
  have hnsp : ∀ c ∈ renderNat m.natAbs, isSpc c = false :=
    fun c hc => isSpc_of_isDigit (hdig c hc)
  by_cases hneg : m < 0
  · have hrender : renderInt m = '-' :: renderNat m.natAbs := by
      unfold renderInt
      rw [if_pos hneg]
      rfl
    rw [hrender]
    have hnsp2 : ∀ c ∈ '-' :: renderNat m.natAbs, isSpc c = false := by
      intro c hc
      rcases List.mem_cons.mp hc with rfl | h
      · decide
      · exact hnsp c h
    unfold parseFloat
    dsimp only
    rw [strip_of_nonspace hnsp2]
    rw [show parseSign ('-' :: renderNat m.natAbs) = (true, renderNat m.natAbs) from rfl]
    simp only [htd]
    rw [if_neg (fun hcontra => by cases hcontra)]
    rw [if_neg (renderNat_ne_nil _)]
    unfold parseExpPart
    rw [if_pos rfl]
    simp only [if_true]
    rw [digitsVal_renderNat]
    have hcast : ((m.natAbs : ℚ)) = -(m : ℚ) := by
      rw [Int.cast_natAbs, abs_of_neg hneg]
      push_cast
      ring
    rw [hcast]
    norm_num
  · have hrender : renderInt m = renderNat m.natAbs := by
      unfold renderInt
      rw [if_neg hneg]
      rfl
    rw [hrender]
    have hsign : parseSign (renderNat m.natAbs) = (false, renderNat m.natAbs) := by
      rcases hre : renderNat m.natAbs with _ | ⟨c, u⟩
      · exact absurd hre (renderNat_ne_nil _)
      · have hc : c.isDigit = true := by
          apply isDigit_mem_renderNat m.natAbs
          rw [hre]
          simp
        exact parseSign_not_sign _ (not_sign_of_isDigit hc).1 (not_sign_of_isDigit hc).2
    unfold parseFloat
    dsimp only
    rw [strip_of_nonspace hnsp, hsign]
    simp only [htd]
    rw [if_neg (fun hcontra => by cases hcontra)]
    rw [if_neg (renderNat_ne_nil _)]
    unfold parseExpPart
    rw [if_pos rfl]
    simp only [Bool.false_eq_true, if_false]
    rw [digitsVal_renderNat]
    have hcast : ((m.natAbs : ℚ)) = (m : ℚ) := by
      rw [Int.cast_natAbs, abs_of_nonneg (le_of_not_lt hneg)]
    rw [hcast]

/-- Python `int()` on an integral value is the identity. -/
lemma truncInt_intCast (m : ℤ) : truncInt (m : ℚ) = m := by
  unfold truncInt
  split_ifs with h
  · rw [show (-(m : ℚ)) = ((-m : ℤ) : ℚ) by push_cast; ring, Int.floor_intCast]
    ring
  · rw [Int.floor_intCast]

lemma renderFixed_eq_of_round_eq {k : ℕ} {q1 q2 : ℚ}
    (h : round (q1 * (10 : ℚ) ^ k) = round (q2 * (10 : ℚ) ^ k)) :
    renderFixed k q1 = renderFixed k q2 := by
  unfold renderFixed
  rw [h]

lemma round_div_mul (k : ℕ) (q : ℚ) :
    round (((round (q * (10 : ℚ) ^ k) : ℚ) / 10 ^ k) * 10 ^ k) =
      round (q * (10 : ℚ) ^ k) := by
  rw [div_mul_cancel₀]
  · exact round_intCast _
  · positivity

/-! Structure of `splitWS` on generated lines. -/

lemma splitWS_dropWhile (l : Line) : splitWS (l.dropWhile isSpc) = splitWS l := by
  induction l with
  | nil => rfl
  | cons c r ih =>
    rcases hc : isSpc c with _ | _
    · rw [List.dropWhile_cons, hc]
      simp
    · rw [List.dropWhile_cons, hc]
      simp only [if_true]
      rw [ih]
      conv_rhs => rw [splitWS]
      rw [hc]
      simp

lemma splitWS_nil : splitWS [] = [] := by
  simp [splitWS]

lemma splitWS_ws_only {t : Line} (ht : ∀ c ∈ t, isSpc c = true) : splitWS t = [] := by
  induction t with
  | nil => exact splitWS_nil
  | cons c r ih =>
    rw [splitWS, ht c (by simp), if_pos rfl]
    exact ih fun x hx => ht x (by simp [hx])

lemma tw_dw_append_allfail (f : Char → Bool) (r t : Line) (ht : ∀ x ∈ t, f x = false) :
    (r ++ t).takeWhile f = r.takeWhile f ∧ (r ++ t).dropWhile f = r.dropWhile f ++ t := by
  induction r with
  | nil =>
    cases t with
    | nil => simp
    | cons x v =>
      have hx := ht x (by simp)
      simp [List.takeWhile_cons, List.dropWhile_cons, hx]
  | cons a r ih =>
    rcases ha : f a with _ | _
    · simp [List.takeWhile_cons, List.dropWhile_cons, ha]
    · simp [List.takeWhile_cons, List.dropWhile_cons, ha, ih.1, ih.2]

lemma splitWS_append_ws_aux (t : Line) (ht : ∀ c ∈ t, isSpc c = true) :
    ∀ (N : ℕ) (m : Line), m.length ≤ N → splitWS (m ++ t) = splitWS m := by
  intro N
  induction N with
  | zero =>
    intro m hm
    have hm0 : m = [] := List.length_eq_zero.mp (Nat.le_zero.mp hm)
    subst hm0
    simpa [splitWS_nil] using splitWS_ws_only ht
  | succ N ih =>
    intro m hm
    cases m with
    | nil => simpa [splitWS_nil] using splitWS_ws_only ht
    | cons c r =>
      have hmr : r.length ≤ N := by
        simp only [List.length_cons] at hm
        omega
      rcases hc : isSpc c with _ | _
      · rw [List.cons_append]
        conv_lhs => rw [splitWS]
        conv_rhs => rw [splitWS]
        rw [hc]
        simp only [Bool.false_eq_true, if_false]
        have htf : ∀ x ∈ t, (fun d => !(isSpc d)) x = false := by
          intro x hx
          simp [ht x hx]
        have h2 := tw_dw_append_allfail (fun d => !(isSpc d)) r t htf
        rw [h2.1, h2.2]
        have h3 : (r.dropWhile fun d => !(isSpc d)).length ≤ N :=
          le_trans (len_dropWhile_le _ r) hmr
        rw [ih _ h3]
      · rw [List.cons_append]
        conv_lhs => rw [splitWS]
        conv_rhs => rw [splitWS]
        rw [hc]
        simp only [if_true]
        exact ih r hmr

lemma splitWS_strip (l : Line) : splitWS (strip l) = splitWS l := by
  unfold strip
  have hsplit : l.dropWhile isSpc =
      ((l.dropWhile isSpc).reverse.dropWhile isSpc).reverse ++
        ((l.dropWhile isSpc).reverse.takeWhile isSpc).reverse := by
    rw [← List.reverse_append, List.takeWhile_append_dropWhile, List.reverse_reverse]
  have hws : ∀ c ∈ ((l.dropWhile isSpc).reverse.takeWhile isSpc).reverse, isSpc c = true := by
    intro c hc
    rw [List.mem_reverse] at hc
    exact List.mem_takeWhile_imp hc
  calc splitWS (((l.dropWhile isSpc).reverse.dropWhile isSpc).reverse)
      = splitWS (((l.dropWhile isSpc).reverse.dropWhile isSpc).reverse ++
          ((l.dropWhile isSpc).reverse.takeWhile isSpc).reverse) :=
        (splitWS_append_ws_aux _ hws _ _ le_rfl).symm
    _ = splitWS (l.dropWhile isSpc) := by rw [← hsplit]
    _ = splitWS l := splitWS_dropWhile l

lemma splitWS_token (u r : Line) (hu0 : u ≠ []) (hu : ∀ c ∈ u, isSpc c = false)
    (hr : r = [] ∨ ∃ c rt, r = c :: rt ∧ isSpc c = true) :
    splitWS (u ++ r) = u :: splitWS r := by
  cases u with
  | nil => exact absurd rfl hu0
  | cons c u2 =>
    rw [List.cons_append]
    conv_lhs => rw [splitWS]
    rw [hu c (by simp)]
    simp only [Bool.false_eq_true, if_false]
    have hft : ∀ x ∈ u2, (fun d => !(isSpc d)) x = true := by
      intro x hx
      simp [hu x (by simp [hx])]
    have hr2 : r = [] ∨ ∃ ch rt, r = ch :: rt ∧ (fun d => !(isSpc d)) ch = false := by
      rcases hr with rfl | ⟨ch, rt, rfl, hch⟩
      · exact Or.inl rfl
      · exact Or.inr ⟨ch, rt, rfl, by simp [hch]⟩
    have ht := takeWhile_append_stop r hft hr2
    rw [ht.1, ht.2]

/-- The optional field tokens of a generated line, in emission order. -/
def fieldToks (coords : Coords) : List Line :=
  (coords.X.map fun v => 'X' :: renderFixed 4 v).toList ++
  (coords.Y.map fun v => 'Y' :: renderFixed 4 v).toList ++
  (coords.Z.map fun v => 'Z' :: renderFixed 4 v).toList ++
  (coords.F.map fun v => 'F' :: renderFixed 1 v).toList ++
  (coords.S.map fun v => 'S' :: renderInt (truncInt v)).toList

lemma generate_eq_blocks (coords : Coords) (cmd : Line) :
    generate_gcode_line coords cmd =
      cmd ++ (fieldToks coords).foldr (fun u acc => ' ' :: (u ++ acc)) ['\n'] := by
  obtain ⟨x, y, z, f, i, j, s⟩ := coords
  cases x <;> cases y <;> cases z <;> cases f <;> cases s <;>
    simp [generate_gcode_line, fieldToks]

lemma splitWS_blocks (toks : List Line)
    (htoks : ∀ u ∈ toks, u ≠ [] ∧ ∀ c ∈ u, isSpc c = false) :
    splitWS (toks.foldr (fun u acc => ' ' :: (u ++ acc)) ['\n']) = toks := by
  induction toks with
  | nil =>
    show splitWS ['\n'] = []
    rw [splitWS]
    norm_num [isSpc, splitWS_nil]
  | cons u toks ih =>
    rw [List.foldr_cons]
    conv_lhs => rw [splitWS]
    rw [show isSpc ' ' = true from rfl, if_pos rfl]
    rw [splitWS_token u _ (htoks u (by simp)).1 (htoks u (by simp)).2 ?_]
    · rw [ih fun v hv => htoks v (by simp [hv])]
    · cases toks with
      | nil => exact Or.inr ⟨'\n', [], rfl, rfl⟩
      | cons v vs => exact Or.inr ⟨' ', _, by rw [List.foldr_cons], rfl⟩

lemma isSpc_mem_renderFixed (k : ℕ) (q : ℚ) : ∀ c ∈ renderFixed k q, isSpc c = false := by
  intro c hc
  unfold renderFixed at hc
  simp only [List.mem_append, List.mem_cons] at hc
  rcases hc with (h | h) | rfl | h
  · split_ifs at h
    · rw [List.mem_singleton] at h
      subst h
      decide
    · cases h
  · exact isSpc_of_isDigit (isDigit_mem_renderNat _ c h)
  · decide
  · exact isSpc_of_isDigit (isDigit_mem_renderNatPad _ _ c h)

lemma isSpc_mem_renderInt (m : ℤ) : ∀ c ∈ renderInt m, isSpc c = false := by
  intro c hc
  unfold renderInt at hc
  simp only [List.mem_append] at hc
  rcases hc with h | h
  · split_ifs at h
    · rw [List.mem_singleton] at h
      subst h
      decide
    · cases h
  · exact isSpc_of_isDigit (isDigit_mem_renderNat _ c h)

lemma fieldToks_valid (coords : Coords) :
    ∀ u ∈ fieldToks coords, u ≠ [] ∧ ∀ c ∈ u, isSpc c = false := by
  intro u hu
  have hblock : ∀ (a : Char) (rest : Line), isSpc a = false →
      (∀ c ∈ rest, isSpc c = false) →
      (a :: rest ≠ [] ∧ ∀ c ∈ a :: rest, isSpc c = false) := by
    intro a rest ha hrest
    refine ⟨by simp, ?_⟩
    intro c hc
    rcases List.mem_cons.mp hc with rfl | h
    · exact ha
    · exact hrest c h
  unfold fieldToks at hu
  simp only [List.mem_append, Option.mem_toList, Option.mem_def,
    Option.map_eq_some'] at hu
  rcases hu with (((h | h) | h) | h) | h <;> obtain ⟨v, -, rfl⟩ := h
  · exact hblock _ _ (by decide) (isSpc_mem_renderFixed 4 v)
  · exact hblock _ _ (by decide) (isSpc_mem_renderFixed 4 v)
  · exact hblock _ _ (by decide) (isSpc_mem_renderFixed 4 v)
  · exact hblock _ _ (by decide) (isSpc_mem_renderFixed 1 v)
  · exact hblock _ _ (by decide) (isSpc_mem_renderInt (truncInt v))

lemma parseTok_skip (c : Coords) (r : Line) : parseTok c ('G' :: r) = c := rfl

lemma parseFloat_renderFixed4 (q : ℚ) :
    parseFloat (renderFixed 4 q) =
      some ((round (q * (10 : ℚ) ^ 4) : ℚ) / 10 ^ 4) :=
  parseFloat_renderFixed 4 q (by norm_num)

lemma parseFloat_renderFixed1 (q : ℚ) :
    parseFloat (renderFixed 1 q) =
      some ((round (q * (10 : ℚ) ^ 1) : ℚ) / 10 ^ 1) :=
  parseFloat_renderFixed 1 q (by norm_num)

lemma renderFixed_roundtrip (k : ℕ) (q : ℚ) :
    renderFixed k ((round (q * (10 : ℚ) ^ k) : ℚ) / 10 ^ k) = renderFixed k q :=
  renderFixed_eq_of_round_eq (round_div_mul k q)

lemma renderFixed_roundtrip1 (q : ℚ) :
    renderFixed 1 ((round (q * (10 : ℚ)) : ℚ) / 10) = renderFixed 1 q := by
  have h := renderFixed_roundtrip 1 q
  norm_num at h
  exact h

lemma renderFixed_roundtrip4 (q : ℚ) :
    renderFixed 4 ((round (q * (10 : ℚ) ^ 4) : ℚ) / 10 ^ 4) = renderFixed 4 q :=
  renderFixed_roundtrip 4 q

/-- **C8.** Round-trip of the line generator and parser: for every coordinate
record and every whitespace-free `G`-command, generating a line, parsing it
back with `parse_coordinates` and regenerating with the same command
reproduces the line exactly (the parsed values are the rendered roundings,
whose re-rendering at the same precision is unchanged). -/
theorem generate_parse_roundtrip (coords : Coords) (cmd : Line)
    (h1 : cmd.head? = some 'G') (h2 : ∀ c ∈ cmd, isSpc c = false) :
    generate_gcode_line (parse_coordinates (generate_gcode_line coords cmd)) cmd
      = generate_gcode_line coords cmd := by
  obtain ⟨a, cr, rfl⟩ : ∃ a cr, cmd = a :: cr := by
    cases cmd with
    | nil => simp at h1
    | cons a cr => exact ⟨a, cr, rfl⟩
  obtain rfl : a = 'G' := by simpa using h1
  have hr : (fieldToks coords).foldr (fun u acc => ' ' :: (u ++ acc)) ['\n'] = [] ∨
      ∃ c rt, (fieldToks coords).foldr (fun u acc => ' ' :: (u ++ acc)) ['\n']
          = c :: rt ∧ isSpc c = true := by
    cases ht : fieldToks coords with
    | nil => exact Or.inr ⟨'\n', [], rfl, by decide⟩
    | cons u us => exact Or.inr ⟨' ', _, rfl, by decide⟩
  have hsplit : splitWS (strip (generate_gcode_line coords ('G' :: cr)))
      = ('G' :: cr) :: fieldToks coords := by
    rw [splitWS_strip, generate_eq_blocks,
      splitWS_token ('G' :: cr) _ (by simp) h2 hr,
      splitWS_blocks _ (fieldToks_valid coords)]
  unfold parse_coordinates
  rw [hsplit, List.foldl_cons, parseTok_skip]
  obtain ⟨x, y, z, f, i, j, s⟩ := coords
  cases x <;> cases y <;> cases z <;> cases f <;> cases s <;>
    simp [fieldToks, parseTok, generate_gcode_line, emptyCoords,
      setX, setY, setZ, setF, setS, setI, setJ,
      parseFloat_renderFixed4, parseFloat_renderFixed1, parseFloat_renderInt,
      renderFixed_roundtrip4, renderFixed_roundtrip1, truncInt_intCast]

/-- Witness for C8 at a concrete record and the command `G1`. -/
theorem generate_parse_roundtrip_witness :
    ((toChars "G1").head? = some 'G') ∧
    (∀ c ∈ toChars "G1", isSpc c = false) ∧
    generate_gcode_line (parse_coordinates (generate_gcode_line
        ⟨some (3/2), none, some (-1/4), some 5, none, none, some (7/2)⟩ (toChars "G1")))
      (toChars "G1")
      = generate_gcode_line
          ⟨some (3/2), none, some (-1/4), some 5, none, none, some (7/2)⟩ (toChars "G1") :=
  ⟨by decide, by decide,
    generate_parse_roundtrip _ (toChars "G1") (by decide) (by decide)⟩

end SurfacePlot
